import Mathlib

/-!
Verification development for the sixer rewrite engine (sixer.py).

The Python source works by regular-expression substitution over file
contents.  We embed the relevant operations shallowly: a small
backtracking regular-expression engine mirrors the semantics of the
Python `re` module (leftmost match, ordered alternation, greedy
quantifiers, multiline anchors, word boundaries, fixed-string negative
lookbehind/lookahead, capture groups, `pos`/`endpos` windows), and each
regex of the source is transcribed into the engine's abstract syntax.
The import-group parser and import planner are embedded as direct
recursive functions over character lists, faithful to the source.
-/

namespace Sixer

/-- Character ranges tested by a regex character class; a single
character `c` is represented as the pair `(c, c)`. -/
abbrev CRanges := List (Char × Char)

/-- Abstract syntax of the regular expressions used by sixer, mirroring
the Python `re` constructs that appear in the source: literal
characters, character classes (possibly negated), the any-character dot,
concatenation, ordered alternation, greedy star and option, capture
groups, multiline `^` and `$`, the word boundary, and fixed-string
negative lookbehind and lookahead. -/
inductive RE where
  | eps : RE
  | lit : Char → RE
  | cls : Bool → CRanges → RE
  | dot : RE
  | seq : RE → RE → RE
  | alt : RE → RE → RE
  | star : RE → RE
  | opt : RE → RE
  | grp : Nat → RE → RE
  | bol : RE
  | eol : RE
  | wb : RE
  | nlb : List Char → RE
  | nla : List Char → RE
deriving Repr

/-- Matcher state: `l` is the reversed left context, `r` the remaining
input, `p` the absolute position (in characters), and `caps` the capture
records `(group, start, end)` made so far, most recent first. -/
structure MSt where
  l : List Char
  r : List Char
  p : Nat
  caps : List (Nat × Nat × Nat)
deriving Repr

/-- Word characters in the sense of the regex `\b` and `\w`:
`[a-zA-Z0-9_]`. -/
def isWordChar (c : Char) : Bool :=
  (('a' ≤ c && c ≤ 'z') || ('A' ≤ c && c ≤ 'Z') || ('0' ≤ c && c ≤ '9') || c == '_')

/-- Membership of a character in a list of ranges. -/
def inRanges (c : Char) (rs : CRanges) : Bool :=
  rs.any (fun pr => pr.1 ≤ c && c ≤ pr.2)

/-- Backtracking matcher in continuation-passing style.  `endpos` bounds
consumption (the Python `endpos` window); `fuel` bounds the nesting depth
of star iterations (each iteration must consume at least one character,
so any fuel of at least a small multiple of the input length is enough).
Alternation tries the left alternative first and the star is greedy,
exactly as in the Python engine. -/
def remat (endpos : Nat) : Nat → RE → MSt →
    (MSt → Option (Nat × List (Nat × Nat × Nat))) →
    Option (Nat × List (Nat × Nat × Nat))
  | 0, _, _, _ => none
  | fuel + 1, re, st, k =>
  match re with
  | .eps => k st
  | .lit c =>
    match st.r with
    | [] => none
    | c2 :: rest =>
      if st.p < endpos && c2 == c then
        k ⟨c2 :: st.l, rest, st.p + 1, st.caps⟩
      else none
  | .cls neg rs =>
    match st.r with
    | [] => none
    | c2 :: rest =>
      if st.p < endpos && (inRanges c2 rs != neg) then
        k ⟨c2 :: st.l, rest, st.p + 1, st.caps⟩
      else none
  | .dot =>
    match st.r with
    | [] => none
    | c2 :: rest =>
      if st.p < endpos && c2 != '\n' then
        k ⟨c2 :: st.l, rest, st.p + 1, st.caps⟩
      else none
  | .seq a b => remat endpos fuel a st (fun st2 => remat endpos fuel b st2 k)
  | .alt a b =>
    match remat endpos fuel a st k with
    | some res => some res
    | none => remat endpos fuel b st k
  | .star r =>
    match remat endpos fuel r st (fun st2 =>
        if st.p < st2.p then remat endpos fuel (.star r) st2 k else none) with
    | some res => some res
    | none => k st
  | .opt r =>
    match remat endpos fuel r st k with
    | some res => some res
    | none => k st
  | .grp n r =>
    remat endpos fuel r st (fun st2 => k ⟨st2.l, st2.r, st2.p, (n, st.p, st2.p) :: st2.caps⟩)
  | .bol =>
    match st.l with
    | [] => k st
    | c :: _ => if c == '\n' then k st else none
  | .eol =>
    if st.p == endpos then k st
    else
      match st.r with
      | '\n' :: _ => if st.p < endpos then k st else none
      | _ => none
  | .wb =>
    let lw := match st.l with | [] => false | c :: _ => isWordChar c
    let rw := match st.r with | [] => false | c :: _ => st.p < endpos && isWordChar c
    if lw != rw then k st else none
  | .nlb pre =>
    if pre.reverse.isPrefixOf st.l then none else k st
  | .nla post =>
    if post.isPrefixOf st.r && st.p + post.length ≤ endpos then none else k st

/-- Structural size of a regex, used to compute a sufficient fuel. -/
def reSize : RE → Nat
  | .eps => 1
  | .lit _ => 1
  | .cls _ _ => 1
  | .dot => 1
  | .seq a b => reSize a + reSize b + 1
  | .alt a b => reSize a + reSize b + 1
  | .star r => reSize r + 1
  | .opt r => reSize r + 1
  | .grp _ r => reSize r + 1
  | .bol => 1
  | .eol => 1
  | .wb => 1
  | .nlb _ => 1
  | .nla _ => 1

/-- Attempt a match anchored at position `p` with reversed left context
`l` and remaining input `r`, returning the end position and captures of
the preferred match, if any. -/
def tryAt (endpos : Nat) (re : RE) (l r : List Char) (p : Nat) :
    Option (Nat × List (Nat × Nat × Nat)) :=
  remat endpos (4 * r.length + reSize re + 16) re ⟨l, r, p, []⟩
    (fun st2 => some (st2.p, st2.caps))

/-- Scan for the leftmost match starting at or after position `p` (up to
`endpos`), returning match start, match end and captures. -/
def reFindFuel (endpos : Nat) (re : RE) : Nat → List Char → List Char → Nat →
    Option (Nat × Nat × List (Nat × Nat × Nat))
  | 0, _, _, _ => none
  | fuel + 1, l, r, p =>
    if p > endpos then none
    else
      match tryAt endpos re l r p with
      | some (e, caps) => some (p, e, caps)
      | none =>
        match r with
        | [] => none
        | c :: rest => reFindFuel endpos re fuel (c :: l) rest (p + 1)

/-- Scan for the leftmost match starting at or after position `p`. -/
def reFindAux (endpos : Nat) (re : RE) (l r : List Char) (p : Nat) :
    Option (Nat × Nat × List (Nat × Nat × Nat)) :=
  reFindFuel endpos re (r.length + 1) l r p

/-- Data of one successful match: the whole subject string, the match
span and the capture records. -/
structure MatchData where
  orig : List Char
  ms : Nat
  me : Nat
  caps : List (Nat × Nat × Nat)
deriving Repr

/-- Span of a capture group (the most recent record wins, as in Python). -/
def capLookup (caps : List (Nat × Nat × Nat)) (n : Nat) : Option (Nat × Nat) :=
  match caps with
  | [] => none
  | (m, s, e) :: rest => if m == n then some (s, e) else capLookup rest n

/-- Contents of a capture group, if it participated in the match. -/
def mdGrp (md : MatchData) (n : Nat) : Option (List Char) :=
  (capLookup md.caps n).map (fun se => (md.orig.drop se.1).take (se.2 - se.1))

/-- Contents of a capture group, defaulting to the empty string. -/
def mdGrpD (md : MatchData) (n : Nat) : List Char :=
  (mdGrp md n).getD []

/-- The whole matched text (group 0). -/
def mdWhole (md : MatchData) : List Char :=
  (md.orig.drop md.ms).take (md.me - md.ms)

/-- Pure substitution driver: replace every non-overlapping leftmost
match of `re` by `f` applied to its match data, scanning left to right
over the original input exactly like `re.sub`.  An empty match is
replaced and scanning then advances one character. -/
def reSubAux (endpos : Nat) (re : RE) (f : MatchData → List Char) (orig : List Char) :
    Nat → List Char → List Char → Nat → List Char
  | 0, _, r, _ => r
  | fuel + 1, l, r, p =>
    match r with
    | [] =>
      match tryAt endpos re l [] p with
      | some (e, caps) => f ⟨orig, p, e, caps⟩
      | none => []
    | c :: rest =>
      match tryAt endpos re l (c :: rest) p with
      | some (e, caps) =>
        let repl := f ⟨orig, p, e, caps⟩
        if e ≤ p then
          repl ++ c :: reSubAux endpos re f orig fuel (c :: l) rest (p + 1)
        else
          repl ++ reSubAux endpos re f orig fuel
            (((c :: rest).take (e - p)).reverse ++ l) ((c :: rest).drop (e - p)) (p + (e - p))
      | none => c :: reSubAux endpos re f orig fuel (c :: l) rest (p + 1)

/-- Substitution over a string with pure replacement. -/
def reSubP (re : RE) (f : MatchData → List Char) (s : String) : String :=
  ⟨reSubAux s.data.length re f s.data (s.data.length + 1) [] s.data 0⟩

/-- Stateful, fallible substitution driver: the replacement function
threads an accumulator and may fail, mirroring the substitution
callbacks of the source that mutate enclosing state or raise. -/
def reSubStAux (σ ε : Type) (endpos : Nat) (re : RE)
    (f : MatchData → σ → Except ε (List Char × σ)) (orig : List Char) :
    Nat → List Char → List Char → Nat → σ → Except ε (List Char × σ)
  | 0, _, r, _, acc => .ok (r, acc)
  | fuel + 1, l, r, p, acc =>
    match r with
    | [] =>
      match tryAt endpos re l [] p with
      | some (e, caps) => f ⟨orig, p, e, caps⟩ acc
      | none => .ok ([], acc)
    | c :: rest =>
      match tryAt endpos re l (c :: rest) p with
      | some (e, caps) =>
        match f ⟨orig, p, e, caps⟩ acc with
        | .error err => .error err
        | .ok (repl, acc2) =>
          if e ≤ p then
            match reSubStAux σ ε endpos re f orig fuel (c :: l) rest (p + 1) acc2 with
            | .error err => .error err
            | .ok (out, acc3) => .ok (repl ++ c :: out, acc3)
          else
            match reSubStAux σ ε endpos re f orig fuel
                (((c :: rest).take (e - p)).reverse ++ l) ((c :: rest).drop (e - p))
                (p + (e - p)) acc2 with
            | .error err => .error err
            | .ok (out, acc3) => .ok (repl ++ out, acc3)
      | none =>
        match reSubStAux σ ε endpos re f orig fuel (c :: l) rest (p + 1) acc with
        | .error err => .error err
        | .ok (out, acc2) => .ok (c :: out, acc2)

/-- Stateful, fallible substitution over a string. -/
def reSubSt (σ ε : Type) (re : RE) (f : MatchData → σ → Except ε (List Char × σ))
    (s : String) (acc : σ) : Except ε (String × σ) :=
  match reSubStAux σ ε s.data.length re f s.data (s.data.length + 1) [] s.data 0 acc with
  | .error err => .error err
  | .ok (out, acc2) => .ok (⟨out⟩, acc2)

/-- All non-overlapping matches, scanning left to right (`finditer`). -/
def reFindAllAux (endpos : Nat) (re : RE) (orig : List Char) :
    Nat → List Char → List Char → Nat → List MatchData
  | 0, _, _, _ => []
  | fuel + 1, l, r, p =>
    match r with
    | [] =>
      match tryAt endpos re l [] p with
      | some (e, caps) => [⟨orig, p, e, caps⟩]
      | none => []
    | c :: rest =>
      match tryAt endpos re l (c :: rest) p with
      | some (e, caps) =>
        if e ≤ p then
          ⟨orig, p, e, caps⟩ :: reFindAllAux endpos re orig fuel (c :: l) rest (p + 1)
        else
          ⟨orig, p, e, caps⟩ :: reFindAllAux endpos re orig fuel
            (((c :: rest).take (e - p)).reverse ++ l) ((c :: rest).drop (e - p)) (p + (e - p))
      | none => reFindAllAux endpos re orig fuel (c :: l) rest (p + 1)

/-- All matches over a string. -/
def reFindAll (re : RE) (s : String) : List MatchData :=
  reFindAllAux s.data.length re s.data (s.data.length + 1) [] s.data 0

/-- Search over a whole string: does `re` match anywhere? -/
def reSearchB (re : RE) (s : String) : Bool :=
  (reFindAux s.data.length re [] s.data 0).isSome

/-! ### String utilities mirroring the Python operations used by sixer -/

/-- Whitespace characters stripped by Python `str.strip` (ASCII range,
which covers all inputs handled here). -/
def isPySpace (c : Char) : Bool :=
  c == ' ' || c == '\t' || c == '\n' || c == '\r' || c == '\x0b' || c == '\x0c'

/-- Python `str.strip()`. -/
def pyStrip (s : String) : String :=
  ⟨((s.data.dropWhile isPySpace).reverse.dropWhile isPySpace).reverse⟩

/-- Python `str.rstrip()`. -/
def pyRstrip (s : String) : String :=
  ⟨(s.data.reverse.dropWhile isPySpace).reverse⟩

/-- First `n` characters, Python `s[:n]`. -/
def strTake (s : String) (n : Nat) : String := ⟨s.data.take n⟩

/-- All but the first `n` characters, Python `s[n:]`. -/
def strDrop (s : String) (n : Nat) : String := ⟨s.data.drop n⟩

/-- Python slice `s[a:b]` with non-negative bounds. -/
def strSlice (s : String) (a b : Nat) : String := ⟨(s.data.take b).drop a⟩

/-- Prefix test on strings (kernel-reducible `startswith`). -/
def strStarts (s pre : String) : Bool := pre.data.isPrefixOf s.data

/-- Suffix test on strings (kernel-reducible `endswith`). -/
def strEnds (s suf : String) : Bool := suf.data.reverse.isPrefixOf s.data.reverse

/-- Split on a separator character, Python `str.split(sep)` for a
one-character separator. -/
def splitChAux (sep : Char) : List Char → List Char → List (List Char)
  | [], cur => [cur.reverse]
  | c :: rest, cur =>
    if c == sep then cur.reverse :: splitChAux sep rest []
    else splitChAux sep rest (c :: cur)

/-- Split a string on a separator character. -/
def splitCh (sep : Char) (s : String) : List String :=
  (splitChAux sep s.data []).map (fun cs => ⟨cs⟩)

/-- Join strings with a separator (Python `sep.join`). -/
def joinSep (sep : String) : List String → String
  | [] => ""
  | [x] => x
  | x :: rest => x ++ sep ++ joinSep sep rest

/-- Concatenate a list of strings (Python `"".join`). -/
def joinAll (l : List String) : String := l.foldl (fun a b => a ++ b) ""

/-- Decimal digit character. -/
def digitChar (d : Nat) : Char := Char.ofNat (48 + d)

/-- Decimal rendering of a natural number (kernel-reducible). -/
def natToDecAux : Nat → Nat → List Char
  | 0, _ => []
  | fuel + 1, n =>
    if n < 10 then [digitChar n]
    else natToDecAux fuel (n / 10) ++ [digitChar (n % 10)]

/-- Decimal rendering of a natural number as a string. -/
def natToDec (n : Nat) : String := ⟨natToDecAux (n + 1) n⟩

/-- Split off the first line including its newline; `none` when the text
contains no newline at all (Python `str.find` returning `-1`). -/
def splitAtNl : List Char → Option (List Char × List Char)
  | [] => none
  | c :: rest =>
    if c == '\n' then some ([c], rest)
    else
      match splitAtNl rest with
      | some (ln, rs) => some (c :: ln, rs)
      | none => none

/-- Index of the first occurrence of `needle` in `hay`, where `hay` is
the subject starting at absolute index `i` (Python `str.find` with a
start argument). -/
def findSubAux : List Char → List Char → Nat → Option Nat
  | [], needle, i => if needle.isPrefixOf [] then some i else none
  | c :: rest, needle, i =>
    if needle.isPrefixOf (c :: rest) then some i else findSubAux rest needle (i + 1)

/-- Substring containment test (Python `in` on strings). -/
def containsSub (hay needle : List Char) : Bool :=
  (findSubAux hay needle 0).isSome

/-- Code-point comparison of character lists, the order Python uses for
`str` comparison. -/
def chLtB : List Char → List Char → Bool
  | [], [] => false
  | [], _ :: _ => true
  | _ :: _, [] => false
  | a :: as2, b :: bs =>
    if a < b then true else if b < a then false else chLtB as2 bs

/-- Python string `<`. -/
def strLtB (a b : String) : Bool := chLtB a.data b.data

/-- Python list-of-strings `<` (lexicographic, shorter prefix first). -/
def namesLt : List String → List String → Bool
  | [], [] => false
  | [], _ :: _ => true
  | _ :: _, [] => false
  | x :: xs, y :: ys =>
    if strLtB x y then true else if strLtB y x then false else namesLt xs ys

/-- Insert into an ascending list of strings. -/
def insSorted (x : String) : List String → List String
  | [] => [x]
  | y :: ys => if strLtB y x then y :: insSorted x ys else x :: y :: ys

/-- Python `sorted` on strings. -/
def sortStrings (l : List String) : List String :=
  l.foldr insSorted []

/-- Remove adjacent duplicates from a sorted list. -/
def dedupSorted : List String → List String
  | [] => []
  | [x] => [x]
  | x :: y :: rest => if x == y then dedupSorted (y :: rest) else x :: dedupSorted (y :: rest)

/-- Canonical representation of a Python `set` of strings: sorted and
duplicate-free. -/
def namesSet (l : List String) : List String := dedupSorted (sortStrings l)

/-- Append an element to a list unless already present; this models
insertion into a Python `set` whose iteration order we represent by
insertion order. -/
def insertUniq {α : Type} [BEq α] (l : List α) (x : α) : List α :=
  if l.contains x then l else l ++ [x]

/-! ### Static tables of sixer.py -/

/-- `MAX_RANGE` of the source. -/
def maxRangeDefault : Nat := 1024

/-- `STDLIB_MODULES` of the source. -/
def stdlibModules : List String :=
  ["StringIO", "copy", "csv", "datetime", "glob", "heapq", "importlib",
   "itertools", "json", "logging", "os", "re", "socket", "string", "sys",
   "textwrap", "traceback", "types", "unittest", "urlparse"]

/-- `THIRD_PARTY_MODULES` of the source (name prefixes). -/
def thirdPartyModules : List String :=
  ["djanjo", "eventlet", "keystoneclient", "mock", "mox3", "oslo",
   "selenium", "six", "subunit", "testtools", "webob", "wsme"]

/-- `APPLICATION_MODULES` of the source. -/
def applicationModules : List String :=
  ["ceilometer", "cinder", "congress", "glance", "glance_store", "horizon",
   "neutron", "nova", "openstack_dashboard", "swift"]

/-! ### Import parsing (`parse_import_groups`, `parse_import`, `get_line`) -/

/-- An import group `(start_offset, end_offset, module_names)` as
produced by `parse_import_groups`. -/
abbrev IGroup := Nat × Nat × List String

/-- Errors raised by the embedded operations: the import planner's
placement failure (carrying the scanned groups, as the source's
exception message does), the urllib rule's unknown-symbol failure, and
`parse_import`'s `SyntaxError`. -/
inductive SixerErr where
  | placeErr : List IGroup → SixerErr
  | unknownSymbol : String → SixerErr
  | syntaxErr : String → SixerErr
deriving Repr, DecidableEq

instance {α : Type} [DecidableEq α] : DecidableEq (Except SixerErr α) := fun a b =>
  match a, b with
  | .ok x, .ok y =>
    if h : x = y then .isTrue (by rw [h]) else .isFalse (fun hc => h (Except.ok.inj hc))
  | .error x, .error y =>
    if h : x = y then .isTrue (by rw [h]) else .isFalse (fun hc => h (Except.error.inj hc))
  | .ok _, .error _ => .isFalse (fun hc => Except.noConfusion hc)
  | .error _, .ok _ => .isFalse (fun hc => Except.noConfusion hc)

/-- Does the remaining input start with an import statement line, in the
sense of the first line of `IMPORT_GROUP_REGEX`
(`^(?:import|from) .*\n`)? -/
def isImportLineHere (r : List Char) : Bool :=
  "import ".data.isPrefixOf r || "from ".data.isPrefixOf r

/-- Identifier-start characters `[a-zA-Z_]`. -/
def isIdentStart (c : Char) : Bool :=
  ('a' ≤ c && c ≤ 'z') || ('A' ≤ c && c ≤ 'Z') || c == '_'

/-- Leading identifier of a character list, per `IDENTIFIER_REGEX`. -/
def identAt : List Char → Option String
  | [] => none
  | c :: rest => if isIdentStart c then some ⟨c :: rest.takeWhile isWordChar⟩ else none

/-- Module name contributed by one import line, per `IMPORT_NAME_REGEX`
(`^(?:import|from) (IDENT)` over the group text). -/
def lineName (ln : List Char) : Option String :=
  if "import ".data.isPrefixOf ln then identAt (ln.drop 7)
  else if "from ".data.isPrefixOf ln then identAt (ln.drop 5)
  else none

/-- Is the current position at the start of a line (the multiline `^`),
given the reversed left context? -/
def atLineStart (l : List Char) : Bool :=
  match l with
  | [] => true
  | c :: _ => c == '\n'

/-- Advance to the first position at a line start whose line is a
complete import statement (the leftmost position where
`IMPORT_GROUP_REGEX` can match); returns the reversed left context,
remaining input and position there. -/
def scanToGroup : List Char → List Char → Nat → Option (List Char × List Char × Nat)
  | l, [], p =>
    if atLineStart l && isImportLineHere [] && (splitAtNl ([] : List Char)).isSome then
      some (l, [], p)
    else none
  | l, c :: rest, p =>
    if atLineStart l && isImportLineHere (c :: rest) && (splitAtNl (c :: rest)).isSome then
      some (l, c :: rest, p)
    else scanToGroup (c :: l) rest (p + 1)

/-- Consume the maximal run of complete import statement lines
(`(?:(?:import|from) .*\n)*` continued greedily), returning the consumed
lines and the state after them. -/
def consumeImportLines : Nat → List Char → List Char → Nat →
    (List (List Char) × (List Char × List Char × Nat))
  | 0, l, r, p => ([], (l, r, p))
  | fuel + 1, l, r, p =>
    if isImportLineHere r then
      match splitAtNl r with
      | some (ln, rest) =>
        let pr := consumeImportLines fuel (ln.reverse ++ l) rest (p + ln.length)
        (ln :: pr.1, pr.2)
      | none => ([], (l, r, p))
    else ([], (l, r, p))

/-- Consume the trailing blank lines of a group (`\n*`, greedy). -/
def consumeBlanks : Nat → List Char → List Char → Nat → (List Char × List Char × Nat)
  | 0, l, r, p => (l, r, p)
  | fuel + 1, l, r, p =>
    match r with
    | [] => (l, [], p)
    | c :: rest =>
      if c == '\n' then consumeBlanks fuel (c :: l) rest (p + 1) else (l, c :: rest, p)

/-- Work loop of `parse_import_groups`: repeatedly search for the next
match of `IMPORT_GROUP_REGEX` from the current position and record
`(match.start(), match.end(), names)`. -/
def pigAux : Nat → List Char → List Char → Nat → List IGroup
  | 0, _, _, _ => []
  | fuel + 1, l, r, p =>
    match scanToGroup l r p with
    | none => []
    | some (l1, r1, p1) =>
      let pr := consumeImportLines (r1.length + 1) l1 r1 p1
      let tr := consumeBlanks (pr.2.2.1.length + 1) pr.2.1 pr.2.2.1 pr.2.2.2
      (p1, tr.2.2, namesSet (pr.1.filterMap lineName)) :: pigAux fuel tr.1 tr.2.1 tr.2.2

/-- `parse_import_groups` of the source. -/
def parseImportGroups (content : String) : List IGroup :=
  pigAux (content.data.length + 1) [] content.data 0

/-- `parse_import` of the source, including its quirk on a `from` line
without `" import "`: Python then slices with `pos2 = -1`, producing
`line[5:-1]` and `line[7:]` instead of raising. A line starting with
neither `import ` nor `from ` raises `SyntaxError`, modelled as `none`. -/
def parseImport (line : String) : Option (List String) :=
  let l := pyStrip line
  if strStarts l "import " then some (splitCh '.' (strDrop l 7))
  else if strStarts l "from " then
    match findSubAux (l.data.drop 5) " import ".data 5 with
    | some p2 => some (splitCh '.' (strSlice l 5 p2) ++ [strDrop l (p2 + 8)])
    | none => some (splitCh '.' (strSlice l 5 (l.length - 1)) ++ [strDrop l 7])
  else none

/-- `get_line` of the source: the line starting at `pos` including its
newline; when no newline follows, Python computes `content[pos:0]`,
i.e. the empty string. -/
def getLine (content : List Char) (pos : Nat) : List Char :=
  match splitAtNl (content.drop pos) with
  | some (ln, _) => ln
  | none => []

/-! ### The import planner (`Patcher.add_import_names` and friends) -/

/-- Does a group contain a module matching a third-party prefix
(`name.startswith(THIRD_PARTY_MODULES)`)? -/
def hasThirdParty (names : List String) : Bool :=
  names.any (fun n => thirdPartyModules.any (fun pre => strStarts n pre))

/-- Does a group contain an application module? -/
def hasApplication (names : List String) : Bool :=
  names.any (fun n => applicationModules.contains n)

/-- Does a group contain a standard-library module? -/
def hasStdlib (names : List String) : Bool :=
  names.any (fun n => stdlibModules.contains n)

/-- Outcome of the group scan in `add_import_names`: a group to insert
into, a position for a synthesized new group (with the flag telling
whether it follows the last group), or failure. -/
inductive GLoc where
  | target : IGroup → GLoc
  | newGrp : Nat → Bool → GLoc
  | ambiguous : GLoc
deriving Repr, DecidableEq

/-- The `for import_group in import_groups` loop of `add_import_names`:
first third-party group wins as target; otherwise the first application
group requests a new group before it; otherwise, after the loop, a seen
stdlib group requests a new group after the last group scanned
(Python's loop variable retains the last group, so `end` is the end of
the final group, whatever its classification); otherwise the planner
fails. -/
def scanGroups (seen : Bool) (lastEnd : Nat) : List IGroup → GLoc
  | [] => if seen then .newGrp lastEnd true else .ambiguous
  | g :: rest =>
    if hasThirdParty g.2.2 then .target g
    else if hasApplication g.2.2 then .newGrp g.1 false
    else scanGroups (seen || hasStdlib g.2.2) g.2.1 rest

/-- Drop a leading pure-`__future__` group, as `add_import_names` does. -/
def dropFuture (gs : List IGroup) : List IGroup :=
  match gs with
  | g :: rest => if g.2.2 == ["__future__"] then rest else gs
  | [] => []

/-- Walk the target group's lines to find the position where the
new import keeps the group sorted: stop at the first blank line or
at the first line whose parsed name tuple compares greater than the
names of the new import; unparseable lines are skipped. -/
def findInsertPos (content : List Char) (pos e : Nat) (importNames : List String)
    (fuel : Nat) : Nat :=
  match fuel with
  | 0 => pos
  | fuel + 1 =>
    if pos < e then
      let line := getLine content pos
      if line == ['\n'] then pos
      else
        match parseImport ⟨line⟩ with
        | none => findInsertPos content (pos + line.length) e importNames fuel
        | some names =>
          if namesLt importNames names then pos
          else findInsertPos content (pos + line.length) e importNames fuel
    else pos

/-- Insert the import line inside an existing group at the position
found by the sorted walk. -/
def insertIntoGroup (content : String) (g : IGroup) (importLine : String)
    (importNames : List String) : String :=
  let pos := findInsertPos content.data g.1 g.2.1 importNames (g.2.1 - g.1 + 1)
  strTake content pos ++ importLine ++ strDrop content pos

/-- Splice a synthesized new group at `pos`: one separating newline
unless the preceding text already ends with a blank line (or is empty),
and two newlines after it when it becomes the last group, else one. -/
def newGroupInsert (content : String) (pos : Nat) (lastGroup : Bool)
    (importLine : String) : String :=
  let part1 := strTake content pos
  let nl1 := if part1 == "" || strEnds part1 "\n\n" then "" else "\n"
  let nl2 := if lastGroup then "\n\n" else "\n"
  part1 ++ nl1 ++ importLine ++ nl2 ++ strDrop content pos

/-- Placement decision of `add_import_names` once the future group is
dropped: the three-group fast path targets the middle group, otherwise
the heuristic scan runs. -/
def planImport (content : String) (gs2 : List IGroup) (importLine : String)
    (importNames : List String) : Except SixerErr String :=
  match gs2 with
  | [_, g1, _] => .ok (insertIntoGroup content g1 importLine importNames)
  | _ =>
    match scanGroups false 0 gs2 with
    | .target g => .ok (insertIntoGroup content g importLine importNames)
    | .newGrp pos lastG => .ok (newGroupInsert content pos lastG importLine)
    | .ambiguous => .error (.placeErr gs2)

/-- `Patcher.add_import_names` of the source. -/
def addImportNames (content line : String) (importNames : List String) :
    Except SixerErr String :=
  let importLine := pyRstrip line ++ "\n"
  match parseImportGroups content with
  | [] =>
    if content ≠ "" then .ok (importLine ++ "\n\n" ++ content) else .ok importLine
  | g0 :: grest =>
    planImport content (dropFuture (g0 :: grest)) importLine importNames

/-- Does `line` occur right here as a complete line (followed by a
newline or the end of the text)? -/
def lineFullHere (line r : List Char) : Bool :=
  line.isPrefixOf r
    && (match r.drop line.length with | [] => true | c :: _ => c == '\n')

/-- Scan behind `re.search("^" + re.escape(line) + "$", content,
re.MULTILINE)`: since the pattern is an escaped literal between anchors,
a match exists exactly when `line` occurs as a complete line.  `bolF`
records whether the current position is at a line start. -/
def alsAux (line : List Char) : List Char → Bool → Bool
  | [], bolF => bolF && lineFullHere line []
  | c :: rest, bolF =>
    (bolF && lineFullHere line (c :: rest)) || alsAux line rest (c == '\n')

/-- Anchored multiline search for a literal line. -/
def anchoredLineSearch (content line : String) : Bool :=
  alsAux line.data content.data true

/-- `Patcher.add_import_six` of the source (`IMPORT_SIX_REGEX` is
`^import six$` multiline). -/
def addImportSix (content : String) : Except SixerErr String :=
  if anchoredLineSearch content "import six" then .ok content
  else addImportNames content "import six" ["six"]

/-- `Patcher.add_import` of the source: a no-op when the exact line is
already present, otherwise parse the line and plan the insertion. -/
def addImport (content line : String) : Except SixerErr String :=
  if anchoredLineSearch content line then .ok content
  else
    match parseImport line with
    | none => .error (.syntaxErr line)
    | some names => addImportNames content line names

/-! ### The rewrite engine loop (`Patcher.patch`) -/

/-- The operation loop of `Patcher.patch`: run each operation in order
on the current content, recording the names of operations that changed
it; an exception aborts the whole run. -/
def patchOps : List (String × (String → Except SixerErr String)) → String →
    List String → Except SixerErr (List String × String)
  | [], content, modified => .ok (modified, content)
  | (name, op) :: rest, content, modified =>
    match op content with
    | .error e => .error e
    | .ok c2 =>
      if c2 == content then patchOps rest content modified
      else patchOps rest c2 (modified ++ [name])

/-- `Patcher.patch` up to input/output: the changed flag and the final
text that would be written back. -/
def patchFile (ops : List (String × (String → Except SixerErr String)))
    (content : String) : Except SixerErr (Bool × String) :=
  match patchOps ops content [] with
  | .error e => .error e
  | .ok (modified, c) => .ok (!modified.isEmpty, c)

/-- The content written to disk by `Patcher.patch`: only on a successful
run that modified the file; on an error the write is never reached and
the file is untouched. -/
def writtenContent (ops : List (String × (String → Except SixerErr String)))
    (content : String) : Option String :=
  match patchFile ops content with
  | .ok (true, c) => some c
  | _ => none

/-! ### The regexes of sixer.py, transcribed into the engine syntax -/

/-- Literal string as a regex. -/
def strR (s : String) : RE := (s.data.map RE.lit).foldr RE.seq RE.eps

/-- One-or-more repetition. -/
def plusR (r : RE) : RE := .seq r (.star r)

/-- Ordered alternation of literal strings (as in a `(?:a|b|...)`
built by joining escaped names). -/
def altListR : List String → RE
  | [] => .eps
  | [s] => strR s
  | s :: rest => .alt (strR s) (altListR rest)

/-- `IDENTIFIER_REGEX`: `[a-zA-Z_][a-zA-Z0-9_]*`. -/
def identR : RE :=
  .seq (.cls false [('a', 'z'), ('A', 'Z'), ('_', '_')])
    (.star (.cls false [('a', 'z'), ('A', 'Z'), ('0', '9'), ('_', '_')]))

/-- Decimal digit. -/
def digitR : RE := .cls false [('0', '9')]

/-- `GETITEM_REGEX`: `\[[^]]+\]`. -/
def getitemR : RE :=
  .seq (.lit '[') (.seq (plusR (.cls true [(']', ']')])) (.lit ']'))

/-- `CALL_REGEX`: `\([^()]*\)`. -/
def callR : RE :=
  .seq (.lit '(') (.seq (.star (.cls true [('(', '('), (')', ')')])) (.lit ')'))

/-- `SUFFIX_REGEX`: getitem or call. -/
def suffixR : RE := .alt getitemR callR

/-- `SUBEXPR_REGEX`: identifier followed by suffixes. -/
def subexprR : RE := .seq identR (.star suffixR)

/-- `EXPR_REGEX`: dotted chain of subexpressions. -/
def exprR : RE := .seq subexprR (.star (.seq (.lit '.') subexprR))

/-- `SUBPARENT_REGEX`: `\([^()]+\)`. -/
def subparentR : RE :=
  .seq (.lit '(') (.seq (plusR (.cls true [('(', '('), (')', ')')])) (.lit ')'))

/-- `PARENT_REGEX`: `\([^()]*(?:\([^()]+\))?[^()]*\)`, one level of
nested parentheses. -/
def parentR : RE :=
  .seq (.lit '(')
    (.seq (.star (.cls true [('(', '('), (')', ')')]))
      (.seq (.opt subparentR)
        (.seq (.star (.cls true [('(', '('), (')', ')')])) (.lit ')'))))

/-- `FROM_IMPORT_SYMBOLS_REGEX`: `IDENT(?:, IDENT)*`. -/
def fromImportSymsR : RE := .seq identR (.star (.seq (strR ", ") identR))

/-! ### Operation: long (`Long`) -/

/-- `Long.REGEX`: `\b([1-9][0-9]*|0)L`. -/
def longR : RE :=
  .seq .wb
    (.seq (.grp 1 (.alt (.seq (.cls false [('1', '9')]) (.star digitR)) (.lit '0')))
      (.lit 'L'))

/-- `Long.patch`: drop the `L` suffix of decimal long literals. -/
def longPatch (content : String) : String :=
  reSubP longR (fun md => mdGrpD md 1) content

/-! ### Operation: next (`Next`) -/

/-- `Next.REGEX`: `(EXPR|PARENT)\.next\(\)`. -/
def nextR : RE := .seq (.grp 1 (.alt exprR parentR)) (strR ".next()")

/-- `Next.replace`: strip redundant outer parentheses and wrap in
`next(...)`. -/
def nextReplace (md : MatchData) : List Char :=
  let expr := mdGrpD md 1
  let expr2 :=
    if expr.head? == some '(' && expr.getLast? == some ')' then
      (expr.drop 1).dropLast
    else expr
  "next(".data ++ expr2 ++ [')']

/-- `Next.patch`. -/
def nextPatch (content : String) : String :=
  reSubP nextR nextReplace content

/-! ### Operation: iteritems (`Iteritems`) -/

/-- `Iteritems.REGEX`: `(EXPR)\.iteritems\(\)`. -/
def iteritemsR : RE := .seq (.grp 1 exprR) (strR ".iteritems()")

/-- `Iteritems.patch`: rewrite and, if something changed, request the
`import six` shim import. -/
def iteritemsPatch (content : String) : Except SixerErr String :=
  let nc := reSubP iteritemsR
    (fun md => "six.iteritems(".data ++ mdGrpD md 1 ++ [')']) content
  if nc == content then .ok content else addImportSix nc

/-! ### Operation: xrange (`Xrange`) -/

/-- `XRANGE1_REGEX`: `(?<!moves\.)xrange\(([0-9]+)\)`. -/
def xrange1R : RE :=
  .seq (.nlb "moves.".data)
    (.seq (strR "xrange(") (.seq (.grp 1 (plusR digitR)) (.lit ')')))

/-- `XRANGE2_REGEX`: `(?<!moves\.)xrange\(([0-9]+), ([0-9]+)\)`. -/
def xrange2R : RE :=
  .seq (.nlb "moves.".data)
    (.seq (strR "xrange(")
      (.seq (.grp 1 (plusR digitR))
        (.seq (strR ", ") (.seq (.grp 2 (plusR digitR)) (.lit ')')))))

/-- `XRANGE_REGEX`: `(?<!moves\.)xrange *\(`. -/
def xrangeCallR : RE :=
  .seq (.nlb "moves.".data) (.seq (strR "xrange") (.seq (.star (.lit ' ')) (.lit '(')))

/-- Numeric value of a digit string (Python `int`). -/
def digitsToNat (cs : List Char) : Nat :=
  cs.foldl (fun a c => a * 10 + (c.toNat - 48)) 0

/-- Pure stateful substitution (no failure possible). -/
def reSubStP (σ : Type) (re : RE) (f : MatchData → σ → List Char × σ)
    (s : String) (acc : σ) : String × σ :=
  match reSubSt σ Empty re (fun md a => .ok (f md a)) s acc with
  | .ok pr => pr
  | .error e => e.elim

/-- `Xrange.patch` with the configurable `max_range` threshold: bounded
literal calls become `range(...)` directly; any call above the threshold
or with non-literal arguments requires `from six.moves import range`. -/
def xrangePatch (maxRange : Nat) (content : String) : Except SixerErr String :=
  let p1 := reSubStP Bool xrange1R (fun md needSix =>
      let e := digitsToNat (mdGrpD md 1)
      (("range(" ++ natToDec e ++ ")").data, needSix || decide (e > maxRange)))
    content false
  let p2 := reSubStP Bool xrange2R (fun md needSix =>
      let s := digitsToNat (mdGrpD md 1)
      let e := digitsToNat (mdGrpD md 2)
      (("range(" ++ natToDec s ++ ", " ++ natToDec e ++ ")").data,
        needSix || decide (e - s > maxRange)))
    p1.1 p1.2
  let c2 := reSubP xrangeCallR (fun _ => "range(".data) p2.1
  let needSix := p2.2 || decide (c2 ≠ p2.1)
  if needSix then addImport c2 "from six.moves import range" else .ok c2

/-! ### Operation: urllib (`Urllib`) -/

/-- `SIX_MOVES_URLLIB` of the source: destination submodule to legacy
symbols. -/
def sixMovesUrllib : List (String × List String) :=
  [("error", ["HTTPError", "URLError"]),
   ("request",
    ["HTTPBasicAuthHandler", "HTTPCookieProcessor",
     "HTTPPasswordMgrWithDefaultRealm", "HTTPSHandler", "ProxyHandler",
     "Request", "build_opener", "install_opener", "pathname2url", "urlopen"]),
   ("parse",
    ["parse_qs", "parse_qsl", "quote", "quote_plus", "unquote", "urlencode",
     "urljoin", "urlparse", "urlsplit", "urlunparse", "urlunsplit"])]

/-- The inverted `URLLIB` table: symbol to destination submodule. -/
def urllibTable : List (String × String) :=
  sixMovesUrllib.foldl (fun acc pr => acc ++ pr.2.map (fun s => (s, pr.1))) []

/-- Lookup in the `URLLIB` table. -/
def urllibLookup (name : String) : Option String :=
  (urllibTable.find? (fun pr => pr.1 == name)).map (fun pr => pr.2)

/-- `URLLIB_UNCHANGED`: attribute accesses already in the new form. -/
def urllibUnchanged : List String :=
  sixMovesUrllib.map (fun pr => "urllib." ++ pr.1)

/-- `(?:urllib2?|urlparse)`. -/
def urllibModAlt : RE :=
  .alt (.seq (strR "urllib") (.opt (.lit '2'))) (strR "urlparse")

/-- `IMPORT_URLLIB_REGEX`: `^import \b(?:urllib2?|urlparse)\b\n\n?`. -/
def importUrllibR : RE :=
  .seq .bol
    (.seq (strR "import ")
      (.seq .wb (.seq urllibModAlt (.seq .wb (.seq (.lit '\n') (.opt (.lit '\n')))))))

/-- `URLLIB2_MOD_ATTR_REGEX`: `\burllib2\.(?:urllib|urlparse)\.(IDENT)`. -/
def urllib2ModAttrR : RE :=
  .seq .wb
    (.seq (strR "urllib2.")
      (.seq (.alt (strR "urllib") (strR "urlparse")) (.seq (.lit '.') (.grp 1 identR))))

/-- `URLLIB_ATTR_REGEX`: `\b(?:urllib2?|urlparse)\.(IDENT)`. -/
def urllibAttrR : RE :=
  .seq .wb (.seq urllibModAlt (.seq (.lit '.') (.grp 1 identR)))

/-- `URLLIB2_REGEX`: `\burllib2\b(?!\.parse_http_list)`. -/
def urllib2WordR : RE :=
  .seq .wb (.seq (strR "urllib2") (.seq .wb (.nla ".parse_http_list".data)))

/-- `FROM_IMPORT_REGEX` of `Urllib`:
`^from (urllib2?|urlparse) import (SYMS)\n\n?`. -/
def urllibFromImportR : RE :=
  .seq .bol
    (.seq (strR "from ")
      (.seq (.grp 1 urllibModAlt)
        (.seq (strR " import ")
          (.seq (.grp 2 fromImportSymsR) (.seq (.lit '\n') (.opt (.lit '\n')))))))

/-- `Urllib.replace`: map one attribute access to its destination
submodule, leaving already-new accesses and `parse_http_list` alone and
failing on unknown symbols. -/
def urllibReplaceE (md : MatchData) : Except SixerErr (List Char) :=
  let text : String := ⟨mdWhole md⟩
  if urllibUnchanged.contains text then .ok text.data
  else
    let name : String := ⟨mdGrpD md 1⟩
    if name == "parse_http_list" then .ok text.data
    else
      match urllibLookup name with
      | some sub => .ok ("urllib.".data ++ sub.data ++ ('.' :: name.data))
      | none => .error (.unknownSymbol text)

/-- Fallible substitution without extra state. -/
def reSubE (re : RE) (f : MatchData → Except SixerErr (List Char)) (s : String) :
    Except SixerErr String :=
  match reSubSt Unit SixerErr re (fun md u => (f md).map (fun cs => (cs, u))) s () with
  | .ok pr => .ok pr.1
  | .error e => .error e

/-- Append a value under a key of an insertion-ordered dictionary of
lists (`collections.defaultdict(list)`). -/
def dictAppend (d : List (String × List String)) (k v : String) :
    List (String × List String) :=
  if d.any (fun pr => pr.1 == k) then
    d.map (fun pr => if pr.1 == k then (pr.1, pr.2 ++ [v]) else pr)
  else d ++ [(k, [v])]

/-- `Urllib.replace_import_from`: split the imported symbols by
destination submodule, record one replacement import line per
submodule, and delete the statement; `parse_http_list` keeps the whole
statement, and an unknown symbol fails. -/
def urllibFromReplace (md : MatchData) (addImports : List String) :
    Except SixerErr (List Char × List String) :=
  let moduleName : String := ⟨mdGrpD md 1⟩
  let symbols : String := ⟨mdGrpD md 2⟩
  if containsSub symbols.data "parse_http_list".data then .ok (mdWhole md, addImports)
  else
    match (splitCh ',' symbols).foldlM (fun (acc : List (String × List String)) sym =>
        let name := pyStrip sym
        match urllibLookup name with
        | none => Except.error (SixerErr.unknownSymbol (moduleName ++ "." ++ name))
        | some sub => Except.ok (dictAppend acc sub name)) [] with
    | .error e => .error e
    | .ok built =>
      let adds := built.foldl (fun ai pr =>
          insertUniq ai
            ("from six.moves.urllib." ++ pr.1 ++ " import " ++ joinSep ", " pr.2))
        addImports
      .ok ([], adds)

/-- `Urllib.patch_import`: remove plain `import urllib...` statements,
rewrite attribute accesses, rename remaining `urllib2` words and request
the `six.moves` import. -/
def urllibPatchImport (content : String) : Except SixerErr String :=
  let c1 := reSubP importUrllibR (fun _ => []) content
  if c1 == content then .ok content
  else
    match reSubE urllib2ModAttrR urllibReplaceE c1 with
    | .error e => .error e
    | .ok c2 =>
      match reSubE urllibAttrR urllibReplaceE c2 with
      | .error e => .error e
      | .ok c3 =>
        let c4 := reSubP urllib2WordR (fun _ => "urllib".data) c3
        addImport c4 "from six.moves import urllib"

/-- `Urllib.patch`. -/
def urllibPatch (content : String) : Except SixerErr String :=
  match urllibPatchImport content with
  | .error e => .error e
  | .ok c1 =>
    match reSubSt (List String) SixerErr urllibFromImportR urllibFromReplace c1 [] with
    | .error e => .error e
    | .ok (c2, addImports) =>
      (sortStrings addImports).foldlM (fun c line => addImport c line) c2

/-! ### Operation: unicode (`Unicode`) -/

/-- `UNICODE_REGEX`: `\bunicode\b`. -/
def unicodeWordR : RE := .seq .wb (.seq (strR "unicode") .wb)

/-- `DEF_REGEX`: `^ *def +IDENT *\(` (multiline). -/
def defLineR : RE :=
  .seq .bol
    (.seq (.star (.lit ' '))
      (.seq (strR "def")
        (.seq (plusR (.lit ' ')) (.seq identR (.seq (.star (.lit ' ')) (.lit '('))))))

/-- Python `str.splitlines(True)` for newline-terminated text. -/
def splitKeepAux : List Char → List Char → List String
  | [], [] => []
  | [], cur => [⟨cur.reverse⟩]
  | c :: rest, cur =>
    if c == '\n' then (⟨(c :: cur).reverse⟩ : String) :: splitKeepAux rest []
    else splitKeepAux rest (c :: cur)

/-- Split a string into lines keeping the line endings. -/
def splitKeep (s : String) : List String := splitKeepAux s.data []

/-- Occurrence of `needle` within the window `[a, b)` of `hay`
(Python `str.find` with both bounds). -/
def findSubIn (hay needle : List Char) (a b : Nat) : Option Nat :=
  findSubAux ((hay.take b).drop a) needle a

/-- `Unicode._patch_line`: repeatedly replace `\bunicode\b` inside the
moving window, splicing `six.text_type` in place and advancing the
window bounds exactly as the source does. -/
def patchLineLoop (fuel : Nat) (line : List Char) (start endp : Nat)
    (result : Option (List Char)) : Option (List Char) :=
  match fuel with
  | 0 => result
  | fuel + 1 =>
    match reFindAux endp unicodeWordR (line.take start).reverse (line.drop start) start with
    | none => result
    | some (ms, me, _) =>
      let line2 := line.take ms ++ "six.text_type".data ++ line.drop me
      patchLineLoop fuel line2 (ms + 13) (endp + 6) (some line2)

/-- `Unicode.patch` applied to one line: skip import lines, stop the
window at a comment or a triple-quote, skip past a function-definition
name, then run the replacement loop. -/
def unicodePatchLine (line : String) : Option String :=
  if strStarts line "import " || strStarts line "from " then none
  else
    let endA :=
      match findSubAux line.data "#".data 0 with
      | some i => i
      | none => line.length
    let endB :=
      match findSubIn line.data "\x22\x22\x22".data 0 endA with
      | some i => i
      | none => endA
    let start1 :=
      match reFindAux endB defLineR [] line.data 0 with
      | some (_, me, _) => me
      | none => 0
    match patchLineLoop (line.length + 1) line.data start1 endB none with
    | some nl => some ⟨nl⟩
    | none => none

/-- `Unicode.patch`. -/
def unicodePatch (content : String) : Except SixerErr String :=
  let lines := splitKeep content
  if lines.all (fun ln => (unicodePatchLine ln).isNone) then .ok content
  else addImportSix (joinAll (lines.map (fun ln => (unicodePatchLine ln).getD ln)))

/-! ### Operation: six_moves (`SixMoves`) -/

/-- `SIX_MODULE_MOVES` of the source, in source order. -/
def sixModuleMoves : List (String × String) :=
  [("BaseHTTPServer", "BaseHTTPServer"), ("ConfigParser", "configparser"),
   ("Cookie", "http_cookies"), ("HTMLParser", "html_parser"),
   ("Queue", "queue"), ("SimpleHTTPServer", "SimpleHTTPServer"),
   ("SimpleXMLRPCServer", "xmlrpc_server"), ("__builtin__", "builtins"),
   ("cPickle", "cPickle"), ("cookielib", "http_cookiejar"),
   ("htmlentitydefs", "html_entities"), ("httplib", "http_client"),
   ("repr", "reprlib"), ("xmlrpclib", "xmlrpc_client")]

/-- Lookup in `SIX_MODULE_MOVES` (only used on matched keys). -/
def movesLookup (n : String) : String :=
  ((sixModuleMoves.find? (fun pr => pr.1 == n)).map (fun pr => pr.2)).getD ""

/-- `SIX_MOVES_REGEX`: alternation of the sorted escaped module names. -/
def sixMovesAltR : RE := altListR (sortStrings (sixModuleMoves.map (fun pr => pr.1)))

/-- `SixMoves.IMPORT_REGEX`: `^import (MOVES)( as IDENT)?\n\n?`. -/
def smImportR : RE :=
  .seq .bol
    (.seq (strR "import ")
      (.seq (.grp 1 sixMovesAltR)
        (.seq (.opt (.grp 2 (.seq (strR " as ") identR)))
          (.seq (.lit '\n') (.opt (.lit '\n'))))))

/-- `SixMoves.FROM_IMPORT_REGEX`: `^from (MOVES) import (SYMS)\n\n?`. -/
def smFromImportR : RE :=
  .seq .bol
    (.seq (strR "from ")
      (.seq (.grp 1 sixMovesAltR)
        (.seq (strR " import ")
          (.seq (.grp 2 fromImportSymsR) (.seq (.lit '\n') (.opt (.lit '\n')))))))

/-- `SixMoves.MOCK_REGEX`: `(patch\(['"])(MOVES)\.`. -/
def smMockR : RE :=
  .seq (.grp 1 (.seq (strR "patch(") (.cls false [('\x27', '\x27'), ('\x22', '\x22')])))
    (.seq (.grp 2 sixMovesAltR) (.lit '.'))

/-- `SIX_BUILTIN_MOVES` of the source. -/
def sixBuiltinMoves : List (String × String) :=
  [("reduce", "reduce"), ("reload", "reload_module")]

/-- `BUILTIN_REGEX` shape: `(?<!\.)\b(NAMES)\b( *\()`, also used for the
second regex rebuilt from the surviving dictionary keys. -/
def builtinCallR (names : List String) : RE :=
  .seq (.nlb ".".data)
    (.seq .wb
      (.seq (.grp 1 (altListR names))
        (.seq .wb (.grp 2 (.seq (.star (.lit ' ')) (.lit '('))))))

/-- Accumulator of `SixMoves.patch`: the requested import lines and the
module renamings, both Python sets modelled with insertion order. -/
structure SMAcc where
  addImports : List String
  replaceNames : List (String × String)
deriving Repr, DecidableEq

/-- `SixMoves.replace_import`: delete the statement, record the
`six.moves` import line (keeping any `as` alias) and the renaming. -/
def smImportReplace (md : MatchData) (acc : SMAcc) : Except SixerErr (List Char × SMAcc) :=
  let name : String := ⟨mdGrpD md 1⟩
  let newName := movesLookup name
  let line := "from six.moves import " ++ newName ++
    (match mdGrp md 2 with | some a => (⟨a⟩ : String) | none => "")
  .ok ([], ⟨insertUniq acc.addImports line, insertUniq acc.replaceNames (name, newName)⟩)

/-- `SixMoves.replace_from`: delete the statement and record the
rewritten from-import line. -/
def smFromReplace (md : MatchData) (acc : SMAcc) : Except SixerErr (List Char × SMAcc) :=
  let newName := movesLookup ⟨mdGrpD md 1⟩
  let symbols : String := ⟨mdGrpD md 2⟩
  .ok ([], ⟨insertUniq acc.addImports ("from six.moves." ++ newName ++ " import " ++ symbols),
            acc.replaceNames⟩)

/-- `SixMoves.replace_builtins`: scan for builtin calls, drop from the
dictionary those whose `six.moves` import is already present, then
rebuild the regex from the surviving keys and substitute, recording
the needed import lines. -/
def smReplaceBuiltins (content : String) (acc : SMAcc) :
    Except SixerErr (String × SMAcc) :=
  let mds := reFindAll (builtinCallR (sixBuiltinMoves.map (fun pr => pr.1))) content
  let dict := mds.foldl (fun (d : List (String × String)) md =>
      let name : String := ⟨mdGrpD md 1⟩
      match d.find? (fun pr => pr.1 == name) with
      | none => d
      | some pr =>
        if containsSub content.data ("from six.moves import " ++ pr.2 ++ "\n").data then
          d.filter (fun q => q.1 != name)
        else d)
    sixBuiltinMoves
  reSubSt SMAcc SixerErr (builtinCallR (dict.map (fun pr => pr.1)))
    (fun md a =>
      let newName :=
        ((sixBuiltinMoves.find? (fun pr => pr.1 == (⟨mdGrpD md 1⟩ : String))).map
          (fun pr => pr.2)).getD ""
      .ok (newName.data ++ mdGrpD md 2,
        ⟨insertUniq a.addImports ("from six.moves import " ++ newName), a.replaceNames⟩))
    content acc

/-- `\bNAME\b` for the renaming pass (the name is regex-escaped in the
source, hence a literal). -/
def wordSubR (old : String) : RE := .seq .wb (.seq (strR old) .wb)

/-- `SixMoves.patch`: the full pipeline of import rewriting, builtin
rewriting, word renaming, import insertion (note: via
`add_import_names` directly, without the existing-line test of
`add_import`) and the mock-path rewriting. -/
def sixMovesPatch (content : String) : Except SixerErr String :=
  match reSubSt SMAcc SixerErr smImportR smImportReplace content ⟨[], []⟩ with
  | .error e => .error e
  | .ok (c1, a1) =>
    match reSubSt SMAcc SixerErr smFromImportR smFromReplace c1 a1 with
    | .error e => .error e
    | .ok (c2, a2) =>
      match smReplaceBuiltins c2 a2 with
      | .error e => .error e
      | .ok (c3, a3) =>
        let c4 := a3.replaceNames.foldl
          (fun c pr => reSubP (wordSubR pr.1) (fun _ => pr.2.data) c) c3
        match (sortStrings a3.addImports).foldlM (fun c line =>
            match parseImport line with
            | none => Except.error (SixerErr.syntaxErr line)
            | some names => addImportNames c line names) c4 with
        | .error e => .error e
        | .ok c5 =>
          .ok (reSubP smMockR
            (fun md => mdGrpD md 1 ++ "six.moves.".data ++
              (movesLookup ⟨mdGrpD md 2⟩).data ++ ['.'])
            c5)

/-! ### Definitions used to state the claims -/

/-- End offset of the final group in a list (0 for an empty list). -/
def finalGroupEnd : List IGroup → Nat
  | [] => 0
  | [g] => g.2.1
  | _ :: g2 :: rest => finalGroupEnd (g2 :: rest)

/-- The groups are in ascending, non-overlapping offset order with
nonempty spans, all at or after `lo`. -/
def chainFrom : Nat → List IGroup → Prop
  | _, [] => True
  | lo, g :: gs => lo ≤ g.1 ∧ g.1 < g.2.1 ∧ chainFrom g.2.1 gs

/-- The statement lines of a group that the insertion walk visits: lines
from `pos` up to `e`, stopping at the first blank line. -/
def stmtLines : Nat → List Char → Nat → Nat → List (List Char)
  | 0, _, _, _ => []
  | fuel + 1, content, pos, e =>
    if pos < e then
      let line := getLine content pos
      if line == ['\n'] then []
      else line :: stmtLines fuel content (pos + line.length) e
    else []

/-- Offset, within a run of statement lines, of the first statement
whose parsed module-name tuple sorts lexicographically after the
new import; the total length when no statement does.  Unparseable
lines are skipped. -/
def sortedInsertOffset : List (List Char) → List String → Nat
  | [], _ => 0
  | l :: ls, names =>
    match parseImport ⟨l⟩ with
    | some t =>
      if namesLt names t then 0 else l.length + sortedInsertOffset ls names
    | none => l.length + sortedInsertOffset ls names

/-- Does the regex match the entire string (Python `re.fullmatch`)? -/
def reMatchFull (re : RE) (s : String) : Bool :=
  (remat s.data.length (4 * s.data.length + reSize re + 16) re ⟨[], s.data, 0, []⟩
    (fun st => if st.p == s.data.length then some (st.p, st.caps) else none)).isSome

/-- Syntactic predicate: the regex has no anchors and no lookarounds,
so a match can only consume characters. -/
def noAnchors : RE → Bool
  | .eps => true
  | .lit _ => true
  | .cls _ _ => true
  | .dot => true
  | .seq a b => noAnchors a && noAnchors b
  | .alt a b => noAnchors a && noAnchors b
  | .star r => noAnchors r
  | .opt r => noAnchors r
  | .grp _ r => noAnchors r
  | .bol => false
  | .eol => false
  | .wb => false
  | .nlb _ => false
  | .nla _ => false

/-- Declarative semantics of anchor-free regexes: the strings the regex
can consume, with ordered choice and greediness abstracted away. -/
inductive Matches : RE → List Char → Prop where
  | eps : Matches .eps []
  | lit (c : Char) : Matches (.lit c) [c]
  | cls (neg : Bool) (rs : CRanges) (c : Char) :
      (inRanges c rs != neg) = true → Matches (.cls neg rs) [c]
  | dot (c : Char) : (c != '\n') = true → Matches .dot [c]
  | seq {a b : RE} {s1 s2 : List Char} :
      Matches a s1 → Matches b s2 → Matches (.seq a b) (s1 ++ s2)
  | altL {a b : RE} {s : List Char} : Matches a s → Matches (.alt a b) s
  | altR {a b : RE} {s : List Char} : Matches b s → Matches (.alt a b) s
  | starNil (r : RE) : Matches (.star r) []
  | starCons {r : RE} {s1 s2 : List Char} :
      Matches r s1 → Matches (.star r) s2 → Matches (.star r) (s1 ++ s2)
  | optNil (r : RE) : Matches (.opt r) []
  | optSome {r : RE} {s : List Char} : Matches r s → Matches (.opt r) s
  | grp (n : Nat) {r : RE} {s : List Char} : Matches r s → Matches (.grp n r) s

/-- Does the parenthesis nesting depth stay at most `k` while scanning
left to right, starting from current depth `d`?  An unmatched closer
lowers the depth (truncated at zero). -/
def depthLe : Nat → Nat → List Char → Bool
  | _, _, [] => true
  | d, k, c :: rest =>
    if c == '(' then decide (d + 1 ≤ k) && depthLe (d + 1) k rest
    else if c == ')' then depthLe (d - 1) k rest
    else depthLe d k rest

/-- Modelled from the spec: the leading import block of a file is the
maximal run of import statement lines, with their trailing blank lines,
starting at the very beginning of the file; this is its end offset
(0 when the file does not begin with an import statement).  It exists
only to state the claim that group spans cover exactly this block. -/
def specLeadingImportBlockEnd (content : String) : Nat :=
  if isImportLineHere content.data && (splitAtNl content.data).isSome then
    let pr := consumeImportLines (content.data.length + 1) [] content.data 0
    (consumeBlanks (pr.2.2.1.length + 1) pr.2.1 pr.2.2.1 pr.2.2.2).2.2
  else 0

/-- Number of occurrences of `line` as a full line of `content`. -/
def lineCount (content line : String) : Nat :=
  ((splitChAux '\n' content.data []).filter (fun cs => cs == line.data)).length

/-! ### General lemmas about the engine -/

theorem reSubAux_id_of_find_none (endpos : Nat) (re : RE) (f : MatchData → List Char)
    (orig : List Char) :
    ∀ fuel l r p, p + r.length = endpos →
      reFindFuel endpos re fuel l r p = none →
      reSubAux endpos re f orig fuel l r p = r := by
  intro fuel
  induction fuel with
  | zero => intro l r p _ _; rfl
  | succ n ih =>
    intro l r p hlen hfind
    have hp : ¬ p > endpos := by omega
    cases r with
    | nil =>
      simp only [reFindFuel, if_neg hp] at hfind
      cases htry : tryAt endpos re l [] p with
      | some v => rw [htry] at hfind; simp at hfind
      | none => simp only [reSubAux, htry]
    | cons c rest =>
      simp only [reFindFuel, if_neg hp] at hfind
      cases htry : tryAt endpos re l (c :: rest) p with
      | some v => rw [htry] at hfind; simp at hfind
      | none =>
        rw [htry] at hfind
        simp only [reSubAux, htry]
        rw [ih (c :: l) rest (p + 1) (by simp at hlen ⊢; omega) hfind]

theorem reSubP_id_of_no_search (re : RE) (f : MatchData → List Char) (s : String)
    (h : reSearchB re s = false) : reSubP re f s = s := by
  have hf : reFindFuel s.data.length re (s.data.length + 1) [] s.data 0 = none := by
    unfold reSearchB reFindAux at h
    cases hx : reFindFuel s.data.length re (s.data.length + 1) [] s.data 0 with
    | none => rfl
    | some v => rw [hx] at h; simp at h
  unfold reSubP
  rw [reSubAux_id_of_find_none s.data.length re f s.data (s.data.length + 1) [] s.data 0
    (by simp) hf]

theorem reSubStAux_id_of_find_none (σ ε : Type) (endpos : Nat) (re : RE)
    (f : MatchData → σ → Except ε (List Char × σ)) (orig : List Char) :
    ∀ fuel l r p acc, p + r.length = endpos →
      reFindFuel endpos re fuel l r p = none →
      reSubStAux σ ε endpos re f orig fuel l r p acc = .ok (r, acc) := by
  intro fuel
  induction fuel with
  | zero => intro l r p acc _ _; rfl
  | succ n ih =>
    intro l r p acc hlen hfind
    have hp : ¬ p > endpos := by omega
    cases r with
    | nil =>
      simp only [reFindFuel, if_neg hp] at hfind
      cases htry : tryAt endpos re l [] p with
      | some v => rw [htry] at hfind; simp at hfind
      | none => simp only [reSubStAux, htry]
    | cons c rest =>
      simp only [reFindFuel, if_neg hp] at hfind
      cases htry : tryAt endpos re l (c :: rest) p with
      | some v => rw [htry] at hfind; simp at hfind
      | none =>
        rw [htry] at hfind
        simp only [reSubStAux, htry]
        rw [ih (c :: l) rest (p + 1) acc (by simp at hlen ⊢; omega) hfind]

theorem reSubSt_id_of_no_search (σ ε : Type) (re : RE)
    (f : MatchData → σ → Except ε (List Char × σ)) (s : String) (acc : σ)
    (h : reSearchB re s = false) : reSubSt σ ε re f s acc = .ok (s, acc) := by
  have hf : reFindFuel s.data.length re (s.data.length + 1) [] s.data 0 = none := by
    unfold reSearchB reFindAux at h
    cases hx : reFindFuel s.data.length re (s.data.length + 1) [] s.data 0 with
    | none => rfl
    | some v => rw [hx] at h; simp at h
  unfold reSubSt
  rw [reSubStAux_id_of_find_none σ ε s.data.length re f s.data (s.data.length + 1)
    [] s.data 0 acc (by simp) hf]

theorem reSubStP_id_of_no_search (σ : Type) (re : RE)
    (f : MatchData → σ → List Char × σ) (s : String) (acc : σ)
    (h : reSearchB re s = false) : reSubStP σ re f s acc = (s, acc) := by
  unfold reSubStP
  rw [reSubSt_id_of_no_search σ Empty re _ s acc h]

theorem reFindAllAux_nil_of_find_none (endpos : Nat) (re : RE) (orig : List Char) :
    ∀ fuel l r p, p + r.length = endpos →
      reFindFuel endpos re fuel l r p = none →
      reFindAllAux endpos re orig fuel l r p = [] := by
  intro fuel
  induction fuel with
  | zero => intro l r p _ _; rfl
  | succ n ih =>
    intro l r p hlen hfind
    have hp : ¬ p > endpos := by omega
    cases r with
    | nil =>
      simp only [reFindFuel, if_neg hp] at hfind
      cases htry : tryAt endpos re l [] p with
      | some v => rw [htry] at hfind; simp at hfind
      | none => simp only [reFindAllAux, htry]
    | cons c rest =>
      simp only [reFindFuel, if_neg hp] at hfind
      cases htry : tryAt endpos re l (c :: rest) p with
      | some v => rw [htry] at hfind; simp at hfind
      | none =>
        rw [htry] at hfind
        simp only [reFindAllAux, htry]
        exact ih (c :: l) rest (p + 1) (by simp at hlen ⊢; omega) hfind

theorem reFindAll_nil_of_no_search (re : RE) (s : String)
    (h : reSearchB re s = false) : reFindAll re s = [] := by
  have hf : reFindFuel s.data.length re (s.data.length + 1) [] s.data 0 = none := by
    unfold reSearchB reFindAux at h
    cases hx : reFindFuel s.data.length re (s.data.length + 1) [] s.data 0 with
    | none => rfl
    | some v => rw [hx] at h; simp at h
  unfold reFindAll
  exact reFindAllAux_nil_of_find_none s.data.length re s.data (s.data.length + 1)
    [] s.data 0 (by simp) hf

/-- A content with no remaining `iteritems` match is returned unchanged. -/
theorem iteritemsPatch_settled (c : String) (h : reSearchB iteritemsR c = false) :
    iteritemsPatch c = .ok c := by
  unfold iteritemsPatch
  rw [reSubP_id_of_no_search iteritemsR _ c h]
  simp

/-- A content with no remaining `xrange` match is returned unchanged. -/
theorem xrangePatch_settled (m : Nat) (c : String)
    (h1 : reSearchB xrange1R c = false) (h2 : reSearchB xrange2R c = false)
    (h3 : reSearchB xrangeCallR c = false) :
    xrangePatch m c = .ok c := by
  simp only [xrangePatch]
  rw [reSubStP_id_of_no_search Bool xrange1R _ c false h1]
  rw [reSubStP_id_of_no_search Bool xrange2R _ c false h2]
  rw [reSubP_id_of_no_search xrangeCallR _ c h3]
  simp

/-- A content with no remaining `urllib` import match is returned
unchanged. -/
theorem urllibPatch_settled (c : String)
    (h1 : reSearchB importUrllibR c = false)
    (h2 : reSearchB urllibFromImportR c = false) :
    urllibPatch c = .ok c := by
  have hi : urllibPatchImport c = .ok c := by
    unfold urllibPatchImport
    rw [reSubP_id_of_no_search importUrllibR _ c h1]
    simp
  have hs : reSubSt (List String) SixerErr urllibFromImportR urllibFromReplace c [] =
      .ok (c, []) :=
    reSubSt_id_of_no_search _ _ _ _ _ _ h2
  simp only [urllibPatch, hi, hs]
  rfl

/-- A content in which the `unicode` line scan finds nothing is returned
unchanged. -/
theorem unicodePatch_settled (c : String)
    (h : (splitKeep c).all (fun ln => (unicodePatchLine ln).isNone) = true) :
    unicodePatch c = .ok c := by
  simp [unicodePatch, h]

/-- A content with no remaining `six_moves` match is returned unchanged. -/
theorem sixMovesPatch_settled (c : String)
    (h1 : reSearchB smImportR c = false)
    (h2 : reSearchB smFromImportR c = false)
    (h3 : reSearchB (builtinCallR (sixBuiltinMoves.map (fun pr => pr.1))) c = false)
    (h4 : reSearchB smMockR c = false) :
    sixMovesPatch c = .ok c := by
  have hb : smReplaceBuiltins c ⟨[], []⟩ = .ok (c, (⟨[], []⟩ : SMAcc)) := by
    unfold smReplaceBuiltins
    rw [reFindAll_nil_of_no_search _ c h3]
    exact reSubSt_id_of_no_search _ _ _ _ _ _ h3
  have e1 : reSubSt SMAcc SixerErr smImportR smImportReplace c ⟨[], []⟩ =
      .ok (c, (⟨[], []⟩ : SMAcc)) :=
    reSubSt_id_of_no_search _ _ _ _ _ _ h1
  have e2 : reSubSt SMAcc SixerErr smFromImportR smFromReplace c ⟨[], []⟩ =
      .ok (c, (⟨[], []⟩ : SMAcc)) :=
    reSubSt_id_of_no_search _ _ _ _ _ _ h2
  have e4 : reSubP smMockR
      (fun md => mdGrpD md 1 ++ "six.moves.".data ++
        (movesLookup ⟨mdGrpD md 2⟩).data ++ ['.']) c = c :=
    reSubP_id_of_no_search _ _ _ h4
  simp only [sixMovesPatch, e1, e2, hb]
  show Except.ok (reSubP smMockR
    (fun md => mdGrpD md 1 ++ "six.moves.".data ++
      (movesLookup ⟨mdGrpD md 2⟩).data ++ ['.']) c) = Except.ok c
  rw [e4]

/-- If every operation maps `c` to `.ok c`, the operation loop records
nothing and returns `c`. -/
theorem patchOps_noop :
    ∀ (ops : List (String × (String → Except SixerErr String))) (c : String)
      (acc : List String),
      (∀ pr ∈ ops, pr.2 c = .ok c) → patchOps ops c acc = .ok (acc, c) := by
  intro ops
  induction ops with
  | nil => intro c acc _; rfl
  | cons hd tl ih =>
    intro c acc h
    obtain ⟨nm, op⟩ := hd
    have hop : op c = .ok c := h (nm, op) (by simp)
    simp only [patchOps, hop, beq_self_eq_true, if_true]
    exact ih c acc (fun pr hpr => h pr (List.mem_cons_of_mem _ hpr))

/-! ### C1: idempotence of rule application -/

/-- C1, counterexample: the long rule is not idempotent.  On the input
`1LL` one application yields `1L` (the regex consumes `1L` and the
second `L` survives), and a second application yields `1`, so
`apply(apply(c)) != apply(c)`. -/
theorem long_apply_twice_differs :
    longPatch "1LL" = "1L" ∧ longPatch (longPatch "1LL") = "1" ∧
      longPatch (longPatch "1LL") ≠ longPatch "1LL" := by
  refine ⟨by decide, by decide, by decide⟩

/-- C1, amended: every rule application is idempotent whenever its
first output is settled, that is, contains no further text the rule
would rewrite — for each of the seven operations, if `apply(c)`
succeeds with an output having no remaining match of the rule's
patterns, then `apply(apply(c)) = apply(c)`; in general one
application can leave a fresh match and idempotence fails.  At the
engine level, running the full operation list again on the final text
of a run returns that text unchanged (with no operation recorded as
modifying) whenever every operation maps that text to itself. -/
theorem rules_idempotent_when_settled :
    (∀ c : String, reSearchB longR (longPatch c) = false →
      longPatch (longPatch c) = longPatch c) ∧
    (∀ c : String, reSearchB nextR (nextPatch c) = false →
      nextPatch (nextPatch c) = nextPatch c) ∧
    (∀ c c1 : String, iteritemsPatch c = .ok c1 →
      reSearchB iteritemsR c1 = false → iteritemsPatch c1 = .ok c1) ∧
    (∀ (m : Nat) (c c1 : String), xrangePatch m c = .ok c1 →
      reSearchB xrange1R c1 = false → reSearchB xrange2R c1 = false →
      reSearchB xrangeCallR c1 = false → xrangePatch m c1 = .ok c1) ∧
    (∀ c c1 : String, urllibPatch c = .ok c1 →
      reSearchB importUrllibR c1 = false →
      reSearchB urllibFromImportR c1 = false → urllibPatch c1 = .ok c1) ∧
    (∀ c c1 : String, unicodePatch c = .ok c1 →
      (splitKeep c1).all (fun ln => (unicodePatchLine ln).isNone) = true →
      unicodePatch c1 = .ok c1) ∧
    (∀ c c1 : String, sixMovesPatch c = .ok c1 →
      reSearchB smImportR c1 = false → reSearchB smFromImportR c1 = false →
      reSearchB (builtinCallR (sixBuiltinMoves.map (fun pr => pr.1))) c1 = false →
      reSearchB smMockR c1 = false → sixMovesPatch c1 = .ok c1) ∧
    (∀ (ops : List (String × (String → Except SixerErr String)))
      (c c1 : String) (b : Bool), patchFile ops c = .ok (b, c1) →
      (∀ pr ∈ ops, pr.2 c1 = .ok c1) → patchFile ops c1 = .ok (false, c1)) := by
  refine ⟨fun c h => reSubP_id_of_no_search longR _ (longPatch c) h,
    fun c h => reSubP_id_of_no_search nextR _ (nextPatch c) h,
    fun c c1 _ h => iteritemsPatch_settled c1 h,
    fun m c c1 _ h1 h2 h3 => xrangePatch_settled m c1 h1 h2 h3,
    fun c c1 _ h1 h2 => urllibPatch_settled c1 h1 h2,
    fun c c1 _ h => unicodePatch_settled c1 h,
    fun c c1 _ h1 h2 h3 h4 => sixMovesPatch_settled c1 h1 h2 h3 h4,
    fun ops c c1 b _ h2 => ?_⟩
  unfold patchFile
  rw [patchOps_noop ops c1 [] h2]
  rfl

/-- Witness for the amended C1: each conjunct exercised at a concrete
input whose first application is settled, plus the engine run on a
one-operation list. -/
theorem rules_idempotent_witness :
    longPatch (longPatch "x = 1L") = longPatch "x = 1L" ∧
    nextPatch (nextPatch "it = gen.next()") = nextPatch "it = gen.next()" ∧
    iteritemsPatch "import six\n\n\nfor key, value in six.iteritems(data): pass\n" =
      .ok "import six\n\n\nfor key, value in six.iteritems(data): pass\n" ∧
    xrangePatch 1024 "for i in range(3): pass\n" = .ok "for i in range(3): pass\n" ∧
    urllibPatch "from six.moves import urllib\n\n\nurllib.request.urlopen(url)\nurllib.error.URLError\n" =
      .ok "from six.moves import urllib\n\n\nurllib.request.urlopen(url)\nurllib.error.URLError\n" ∧
    unicodePatch "import copy\n\nimport oslo_utils\nimport six\n\nt = six.text_type\n" =
      .ok "import copy\n\nimport oslo_utils\nimport six\n\nt = six.text_type\n" ∧
    sixMovesPatch "from six.moves import queue\nfrom six.moves import queue\n\nx = queue.queue()\n" =
      .ok "from six.moves import queue\nfrom six.moves import queue\n\nx = queue.queue()\n" ∧
    patchFile [("long", fun s => .ok (longPatch s))] "x = 1" = .ok (false, "x = 1") :=
  ⟨rules_idempotent_when_settled.1 "x = 1L" (by decide),
   rules_idempotent_when_settled.2.1 "it = gen.next()" (by decide),
   rules_idempotent_when_settled.2.2.1
     "for key, value in data.iteritems(): pass\n" _ (by decide) (by decide),
   rules_idempotent_when_settled.2.2.2.1 1024
     "for i in xrange(3): pass\n" _ (by decide) (by decide) (by decide) (by decide),
   rules_idempotent_when_settled.2.2.2.2.1
     "import urllib2\n\nurllib2.urlopen(url)\nurllib2.URLError\n" _
     (by decide) (by decide) (by decide),
   rules_idempotent_when_settled.2.2.2.2.2.1
     "import copy\n\nimport oslo_utils\n\nt = unicode\n" _ (by decide) (by decide),
   rules_idempotent_when_settled.2.2.2.2.2.2.1
     "import Queue\n\nfrom six.moves import queue\n\nx = Queue.Queue()\n" _
     (by decide) (by decide) (by decide) (by decide) (by decide),
   rules_idempotent_when_settled.2.2.2.2.2.2.2
     [("long", fun s => .ok (longPatch s))] "x = 1L" _ true (by decide) (by decide)⟩

/-! ### C2: no duplicate imports -/

theorem isPrefixOf_append_self : ∀ (l t : List Char), l.isPrefixOf (l ++ t) = true := by
  intro l t
  induction l with
  | nil => simp [List.isPrefixOf]
  | cons c rest ih => simp [List.isPrefixOf, ih]

theorem lineFullHere_append (line post : List Char)
    (hpost : post = [] ∨ post.head? = some '\n') :
    lineFullHere line (line ++ post) = true := by
  unfold lineFullHere
  rw [isPrefixOf_append_self, List.drop_left]
  rcases hpost with h | h
  · subst h; rfl
  · cases post with
    | nil => simp at h
    | cons c rest =>
      simp at h
      subst h
      rfl

theorem alsAux_at (line post : List Char)
    (hpost : post = [] ∨ post.head? = some '\n') :
    alsAux line (line ++ post) true = true := by
  have hfull := lineFullHere_append line post hpost
  cases hr : line ++ post with
  | nil => rw [hr] at hfull; simp [alsAux, hfull]
  | cons c rest => rw [hr] at hfull; simp [alsAux, hfull]

theorem alsAux_pre (line : List Char) :
    ∀ (pre tail : List Char) (b : Bool),
      alsAux line tail true = true →
      (pre = [] → b = true) →
      (pre ≠ [] → pre.getLast? = some '\n') →
      alsAux line (pre ++ tail) b = true := by
  intro pre
  induction pre with
  | nil =>
    intro tail b h1 h2 _
    rw [h2 rfl]
    simpa using h1
  | cons c pre ih =>
    intro tail b h1 _ h3
    have hlast : (c :: pre).getLast? = some '\n' := h3 (by simp)
    have : alsAux line (pre ++ tail) (c == '\n') = true := by
      apply ih tail (c == '\n') h1
      · intro hpre
        subst hpre
        simp at hlast
        simp [hlast]
      · intro hpre
        cases pre with
        | nil => simp at hpre
        | cons d rest => rw [← hlast]; rfl
    simp [alsAux, this]

/-- C2, counterexample: the six_moves rule requests its import through
`add_import_names` directly, bypassing the verbatim-line check of
`add_import`, so a file that already contains the requested import line
verbatim ends with that line twice. -/
theorem six_moves_duplicates_import_line :
    sixMovesPatch "import Queue\n\nfrom six.moves import queue\n\nx = Queue.Queue()\n" =
      .ok "from six.moves import queue\nfrom six.moves import queue\n\nx = queue.queue()\n" ∧
    lineCount "import Queue\n\nfrom six.moves import queue\n\nx = Queue.Queue()\n"
      "from six.moves import queue" = 1 ∧
    lineCount "from six.moves import queue\nfrom six.moves import queue\n\nx = queue.queue()\n"
      "from six.moves import queue" = 2 := by
  refine ⟨by decide, by decide, by decide⟩

/-- C2, amended: the planner entry points `add_import` (and
`add_import_six`) are no-ops whenever the identical import line already
occurs verbatim as a full line of the file; only requests routed
directly through `add_import_names` (as the six_moves rule does) can
duplicate a line. -/
theorem add_import_noop_when_line_exists (content line : String) (pre post : List Char)
    (hsplit : content.data = pre ++ line.data ++ post)
    (hpre : pre = [] ∨ pre.getLast? = some '\n')
    (hpost : post = [] ∨ post.head? = some '\n') :
    addImport content line = .ok content ∧
      (line = "import six" → addImportSix content = .ok content) := by
  have hs : anchoredLineSearch content line = true := by
    unfold anchoredLineSearch
    rw [hsplit, List.append_assoc]
    refine alsAux_pre line.data pre (line.data ++ post) true
      (alsAux_at line.data post hpost) (fun _ => rfl) ?_
    intro hne
    rcases hpre with h | h
    · exact absurd h hne
    · exact h
  constructor
  · unfold addImport
    rw [hs]
    rfl
  · intro hl
    subst hl
    unfold addImportSix
    rw [hs]
    rfl

/-- Witness for the amended C2: adding `import six` to a file that
already contains it verbatim is a no-op. -/
theorem add_import_noop_witness :
    addImport "import os\n\nimport six\n\nx = 1\n" "import six" =
      .ok "import os\n\nimport six\n\nx = 1\n" ∧
    addImportSix "import os\n\nimport six\n\nx = 1\n" =
      .ok "import os\n\nimport six\n\nx = 1\n" := by
  have h := add_import_noop_when_line_exists "import os\n\nimport six\n\nx = 1\n" "import six"
    "import os\n\n".data "\n\nx = 1\n".data (by decide) (by decide) (by decide)
  exact ⟨h.1, h.2 rfl⟩

/-! ### C3 and C4: the placement heuristic -/

theorem scanGroups_ambiguous : ∀ (gs : List IGroup) (lastEnd : Nat),
    (∀ g ∈ gs, hasThirdParty g.2.2 = false ∧ hasApplication g.2.2 = false ∧
      hasStdlib g.2.2 = false) →
    scanGroups false lastEnd gs = .ambiguous := by
  intro gs
  induction gs with
  | nil => intro lastEnd _; rfl
  | cons g rest ih =>
    intro lastEnd h
    obtain ⟨htp, hap, hst⟩ := h g (by simp)
    simp only [scanGroups, htp, hap, hst, Bool.or_false, if_false]
    exact ih g.2.1 (fun g2 hg2 => h g2 (by simp [hg2]))

theorem scanGroups_stdlib : ∀ (gs : List IGroup) (seen : Bool) (lastEnd : Nat),
    gs ≠ [] →
    (∀ g ∈ gs, hasThirdParty g.2.2 = false ∧ hasApplication g.2.2 = false) →
    (seen = true ∨ ∃ g ∈ gs, hasStdlib g.2.2 = true) →
    scanGroups seen lastEnd gs = .newGrp (finalGroupEnd gs) true := by
  intro gs
  induction gs with
  | nil => intro seen lastEnd hne _ _; exact absurd rfl hne
  | cons g rest ih =>
    intro seen lastEnd _ hall hseen
    obtain ⟨htp, hap⟩ := hall g (by simp)
    cases rest with
    | nil =>
      have hor : (seen || hasStdlib g.2.2) = true := by
        rcases hseen with h | ⟨g2, hg2, hstd⟩
        · simp [h]
        · simp at hg2
          subst hg2
          simp [hstd]
      simp [scanGroups, htp, hap, hor, finalGroupEnd]
    | cons g2 rest2 =>
      have step : scanGroups seen lastEnd (g :: g2 :: rest2) =
          scanGroups (seen || hasStdlib g.2.2) g.2.1 (g2 :: rest2) := by
        rw [scanGroups]
        simp [htp, hap]
      have hnext : scanGroups (seen || hasStdlib g.2.2) g.2.1 (g2 :: rest2) =
          .newGrp (finalGroupEnd (g2 :: rest2)) true := by
        apply ih (seen || hasStdlib g.2.2) g.2.1 (by simp)
          (fun g3 hg3 => hall g3 (by simp [hg3]))
        rcases hseen with h | ⟨g3, hg3, hstd⟩
        · left; simp [h]
        · rcases List.mem_cons.mp hg3 with h | h
          · subst h; left; simp [hstd]
          · right; exact ⟨g3, h, hstd⟩
      rw [step, hnext]
      rfl

theorem planImport_ambiguous (content : String) (gs2 : List IGroup)
    (il : String) (names : List String)
    (h3 : gs2.length ≠ 3) (hscan : scanGroups false 0 gs2 = .ambiguous) :
    planImport content gs2 il names = .error (.placeErr gs2) := by
  match gs2 with
  | [] => simp [planImport, hscan]
  | [a] => simp [planImport, hscan]
  | [a, b] => simp [planImport, hscan]
  | [a, b, c] => simp at h3
  | a :: b :: c :: d :: rest => simp [planImport, hscan]

theorem planImport_newGrp (content : String) (gs2 : List IGroup)
    (il : String) (names : List String) (pos : Nat) (lastG : Bool)
    (h3 : gs2.length ≠ 3) (hscan : scanGroups false 0 gs2 = .newGrp pos lastG) :
    planImport content gs2 il names = .ok (newGroupInsert content pos lastG il) := by
  match gs2 with
  | [] => simp [planImport, hscan]
  | [a] => simp [planImport, hscan]
  | [a, b] => simp [planImport, hscan]
  | [a, b, c] => simp at h3
  | a :: b :: c :: d :: rest => simp [planImport, hscan]

/-- C3: when at least one import group exists but no group scanned is
classifiable as third-party, application or standard library (and the
three-group fast path does not apply), `add_import_names` fails with a
placement error carrying the scanned groups, and the engine run writes
nothing back: the file is left unmodified and the error is surfaced, not
resolved by guessing. -/
theorem ambiguous_placement_error (content line : String) (names : List String)
    (opName : String)
    (h1 : parseImportGroups content ≠ [])
    (h2 : ∀ g ∈ dropFuture (parseImportGroups content),
      hasThirdParty g.2.2 = false ∧ hasApplication g.2.2 = false ∧
        hasStdlib g.2.2 = false)
    (h3 : (dropFuture (parseImportGroups content)).length ≠ 3) :
    addImportNames content line names =
      .error (.placeErr (dropFuture (parseImportGroups content))) ∧
    writtenContent [(opName, fun c => addImportNames c line names)] content = none := by
  have hmain : addImportNames content line names =
      .error (.placeErr (dropFuture (parseImportGroups content))) := by
    cases hgs : parseImportGroups content with
    | nil => exact absurd hgs h1
    | cons g0 grest =>
      have hscan := scanGroups_ambiguous (dropFuture (g0 :: grest)) 0
        (by rw [← hgs]; exact h2)
      simp only [addImportNames, hgs]
      rw [planImport_ambiguous content (dropFuture (g0 :: grest)) _ names
        (by rw [← hgs]; exact h3) hscan]
  refine ⟨hmain, ?_⟩
  simp [writtenContent, patchFile, patchOps, hmain]

/-- Witness for C3 at a file whose only import group is the
unclassifiable `zzz`. -/
theorem ambiguous_placement_witness :
    addImportNames "import zzz\n\nx = 1\n" "import six" ["six"] =
      .error (.placeErr [(0, 12, ["zzz"])]) ∧
    writtenContent [("unicode", fun c => addImportNames c "import six" ["six"])]
      "import zzz\n\nx = 1\n" = none := by
  have h := ambiguous_placement_error "import zzz\n\nx = 1\n" "import six" ["six"]
    "unicode" (by decide) (by decide) (by decide)
  refine ⟨?_, h.2⟩
  rw [h.1]
  decide

/-- C4, counterexample: with groups `os` (stdlib) then `zzz`
(unclassifiable), the synthesized group lands after the `zzz` group
(end offset 23), not immediately after the last stdlib-classified group
(`os`, ending at offset 11) as the claim states; the loop variable of
the source retains the final group scanned, whatever its class. -/
theorem new_group_not_after_last_stdlib :
    parseImportGroups "import os\n\nimport zzz\n\nx = 1\n" =
      [(0, 11, ["os"]), (11, 23, ["zzz"])] ∧
    hasStdlib ["os"] = true ∧ hasStdlib ["zzz"] = false ∧
    addImportNames "import os\n\nimport zzz\n\nx = 1\n" "import six" ["six"] =
      .ok "import os\n\nimport zzz\n\nimport six\n\n\nx = 1\n" ∧
    ("import os\n\nimport zzz\n\nimport six\n\n\nx = 1\n" : String) ≠
      "import os\n\nimport six\n\nimport zzz\n\nx = 1\n" := by
  refine ⟨by decide, by decide, by decide, by decide, by decide⟩

/-- C4, amended: when no third-party and no application group is found
but some stdlib group was seen, the new import goes into a synthesized
group immediately after the last group in the file (which is the last
stdlib-classified group only when that group comes last). -/
theorem stdlib_seen_new_group_after_final_group (content line : String)
    (names : List String)
    (h1 : parseImportGroups content ≠ [])
    (h2 : dropFuture (parseImportGroups content) ≠ [])
    (h3 : (dropFuture (parseImportGroups content)).length ≠ 3)
    (h4 : ∀ g ∈ dropFuture (parseImportGroups content),
      hasThirdParty g.2.2 = false ∧ hasApplication g.2.2 = false)
    (h5 : ∃ g ∈ dropFuture (parseImportGroups content), hasStdlib g.2.2 = true) :
    addImportNames content line names =
      .ok (newGroupInsert content
        (finalGroupEnd (dropFuture (parseImportGroups content))) true
        (pyRstrip line ++ "\n")) := by
  cases hgs : parseImportGroups content with
  | nil => exact absurd hgs h1
  | cons g0 grest =>
    have hscan := scanGroups_stdlib (dropFuture (g0 :: grest)) false 0
      (by rw [← hgs]; exact h2) (by rw [← hgs]; exact h4)
      (by right; rw [← hgs]; exact h5)
    simp only [addImportNames, hgs]
    rw [planImport_newGrp content (dropFuture (g0 :: grest)) _ names _ _
      (by rw [← hgs]; exact h3) hscan]

/-- Witness for the amended C4 at the counterexample input. -/
theorem stdlib_seen_new_group_witness :
    addImportNames "import os\n\nimport zzz\n\nx = 1\n" "import six" ["six"] =
      .ok (newGroupInsert "import os\n\nimport zzz\n\nx = 1\n"
        (finalGroupEnd (dropFuture
          (parseImportGroups "import os\n\nimport zzz\n\nx = 1\n"))) true
        "import six\n") :=
  stdlib_seen_new_group_after_final_group "import os\n\nimport zzz\n\nx = 1\n"
    "import six" ["six"] (by decide) (by decide) (by decide) (by decide)
    ⟨(0, 11, ["os"]), by decide, by decide⟩

/-! ### C5: shape of the parsed import groups -/

theorem splitAtNl_len : ∀ (r ln rest : List Char), splitAtNl r = some (ln, rest) →
    1 ≤ ln.length ∧ ln.length + rest.length = r.length := by
  intro r
  induction r with
  | nil => intro ln rest h; simp [splitAtNl] at h
  | cons c rcs ih =>
    intro ln rest h
    by_cases hc : c == '\n'
    · simp [splitAtNl, hc] at h
      obtain ⟨h1, h2⟩ := h
      subst h1; subst h2
      simp
      omega
    · simp [splitAtNl, hc] at h
      cases hs : splitAtNl rcs with
      | none => rw [hs] at h; simp at h
      | some pr =>
        rw [hs] at h
        simp at h
        obtain ⟨h1, h2⟩ := h
        have := ih pr.1 pr.2 (by rw [hs])
        subst h1; subst h2
        simp at this ⊢
        omega

theorem scanToGroup_le : ∀ (r l : List Char) (p : Nat) (l1 r1 : List Char) (p1 : Nat),
    scanToGroup l r p = some (l1, r1, p1) →
    p ≤ p1 ∧ isImportLineHere r1 = true ∧ (splitAtNl r1).isSome = true := by
  intro r
  induction r with
  | nil =>
    intro l p l1 r1 p1 h
    have hunf : scanToGroup l [] p =
        (if atLineStart l && isImportLineHere []
            && (splitAtNl ([] : List Char)).isSome then
          some (l, [], p)
        else none) := rfl
    rw [hunf] at h
    have hfalse : isImportLineHere ([] : List Char) = false := by decide
    simp [hfalse] at h
  | cons c rest ih =>
    intro l p l1 r1 p1 h
    have hunf : scanToGroup l (c :: rest) p =
        (if atLineStart l && isImportLineHere (c :: rest)
            && (splitAtNl (c :: rest)).isSome then
          some (l, c :: rest, p)
        else scanToGroup (c :: l) rest (p + 1)) := rfl
    rw [hunf] at h
    by_cases hcond : (atLineStart l && isImportLineHere (c :: rest)
        && (splitAtNl (c :: rest)).isSome) = true
    · rw [if_pos hcond] at h
      simp at h
      obtain ⟨_, h2, h3⟩ := h
      subst h2; subst h3
      simp at hcond
      exact ⟨Nat.le_refl p, hcond.1.2, hcond.2⟩
    · rw [if_neg hcond] at h
      have := ih (c :: l) (p + 1) l1 r1 p1 h
      exact ⟨by omega, this.2⟩

theorem consumeImportLines_ge : ∀ (fuel : Nat) (l r : List Char) (p : Nat),
    p ≤ (consumeImportLines fuel l r p).2.2.2 := by
  intro fuel
  induction fuel with
  | zero => intro l r p; exact Nat.le_refl p
  | succ n ih =>
    intro l r p
    rw [consumeImportLines]
    by_cases hil : isImportLineHere r = true
    · rw [if_pos hil]
      cases hs : splitAtNl r with
      | none => exact Nat.le_refl p
      | some pr =>
        obtain ⟨ln, rest⟩ := pr
        exact le_trans (Nat.le_add_right p ln.length) (ih (ln.reverse ++ l) rest (p + ln.length))
    · rw [if_neg hil]

theorem consumeImportLines_gt (fuel : Nat) (l r : List Char) (p : Nat)
    (hil : isImportLineHere r = true) (hsp : (splitAtNl r).isSome = true) :
    p < (consumeImportLines (fuel + 1) l r p).2.2.2 := by
  rw [consumeImportLines, if_pos hil]
  cases hs : splitAtNl r with
  | none => rw [hs] at hsp; simp at hsp
  | some pr =>
    obtain ⟨ln, rest⟩ := pr
    have hlen := (splitAtNl_len r ln rest hs).1
    have hge := consumeImportLines_ge fuel (ln.reverse ++ l) rest (p + ln.length)
    exact lt_of_lt_of_le (by omega) hge

theorem consumeBlanks_ge : ∀ (fuel : Nat) (l r : List Char) (p : Nat),
    p ≤ (consumeBlanks fuel l r p).2.2 := by
  intro fuel
  induction fuel with
  | zero => intro l r p; exact Nat.le_refl p
  | succ n ih =>
    intro l r p
    cases r with
    | nil => exact Nat.le_refl p
    | cons c rest =>
      rw [consumeBlanks]
      by_cases hc : (c == '\n') = true
      · rw [if_pos hc]
        exact le_trans (Nat.le_succ p) (ih (c :: l) rest (p + 1))
      · rw [if_neg hc]

theorem pigAux_chain : ∀ (fuel : Nat) (l r : List Char) (p : Nat),
    chainFrom p (pigAux fuel l r p) := by
  intro fuel
  induction fuel with
  | zero => intro l r p; trivial
  | succ n ih =>
    intro l r p
    rw [pigAux]
    cases hscan : scanToGroup l r p with
    | none => trivial
    | some t =>
      obtain ⟨l1, r1, p1⟩ := t
      obtain ⟨hle, hil, hsp⟩ := scanToGroup_le r l p l1 r1 p1 hscan
      have h1 : p1 < (consumeImportLines (r1.length + 1) l1 r1 p1).2.2.2 :=
        consumeImportLines_gt r1.length l1 r1 p1 hil hsp
      have h2 := consumeBlanks_ge
        ((consumeImportLines (r1.length + 1) l1 r1 p1).2.2.1.length + 1)
        (consumeImportLines (r1.length + 1) l1 r1 p1).2.1
        (consumeImportLines (r1.length + 1) l1 r1 p1).2.2.1
        (consumeImportLines (r1.length + 1) l1 r1 p1).2.2.2
      refine ⟨hle, ?_, ih _ _ _⟩
      show p1 < (consumeBlanks
        ((consumeImportLines (r1.length + 1) l1 r1 p1).2.2.1.length + 1)
        (consumeImportLines (r1.length + 1) l1 r1 p1).2.1
        (consumeImportLines (r1.length + 1) l1 r1 p1).2.2.1
        (consumeImportLines (r1.length + 1) l1 r1 p1).2.2.2).2.2
      omega

/-- C5, amended (true part): for every input, the parsed import groups
are in ascending, non-overlapping offset order with nonempty spans. -/
theorem groups_ascending_nonoverlapping (content : String) :
    chainFrom 0 (parseImportGroups content) :=
  pigAux_chain (content.data.length + 1) [] content.data 0

/-- C5, counterexample: group parsing scans the whole file, not only its
leading block.  On `x = 1\nimport os\n` the leading import block is
empty (the file does not start with an import), yet a group spanning
offsets 6 to 16 is returned, so the union of group spans is not the
leading import block. -/
theorem groups_beyond_leading_block :
    parseImportGroups "x = 1\nimport os\n" = [(6, 16, ["os"])] ∧
    specLeadingImportBlockEnd "x = 1\nimport os\n" = 0 ∧
    ¬ ((16 : Nat) ≤ 0) := by
  refine ⟨by decide, by decide, by decide⟩

/-! ### C6: sorted insertion point inside a group -/

theorem findInsertPos_eq_sortedOffset :
    ∀ (fuel : Nat) (content : List Char) (pos e : Nat) (names : List String),
      findInsertPos content pos e names fuel =
        pos + sortedInsertOffset (stmtLines fuel content pos e) names := by
  intro fuel
  induction fuel with
  | zero => intro content pos e names; rfl
  | succ n ih =>
    intro content pos e names
    simp only [findInsertPos, stmtLines]
    by_cases hlt : pos < e
    · rw [if_pos hlt, if_pos hlt]
      by_cases hnl : (getLine content pos == ['\n']) = true
      · rw [if_pos hnl, if_pos hnl]
        rfl
      · rw [if_neg hnl, if_neg hnl]
        simp only [sortedInsertOffset]
        cases hp : parseImport ⟨getLine content pos⟩ with
        | none =>
          show findInsertPos content (pos + (getLine content pos).length) e names n =
            pos + ((getLine content pos).length +
              sortedInsertOffset (stmtLines n content (pos + (getLine content pos).length) e)
                names)
          rw [ih content (pos + (getLine content pos).length) e names]
          omega
        | some t =>
          show (if namesLt names t = true then pos
              else findInsertPos content (pos + (getLine content pos).length) e names n) =
            pos + (if namesLt names t = true then 0
              else (getLine content pos).length +
                sortedInsertOffset (stmtLines n content (pos + (getLine content pos).length) e)
                  names)
          by_cases hcmp : namesLt names t = true
          · rw [if_pos hcmp, if_pos hcmp]
            omega
          · rw [if_neg hcmp, if_neg hcmp,
              ih content (pos + (getLine content pos).length) e names]
            omega
    · rw [if_neg hlt, if_neg hlt]
      rfl

/-- C6: the insertion point inside an existing group is found by walking
the group statements and stopping before the first statement whose
parsed module-name tuple sorts after the new import (skipping
unparseable lines), falling at the end of the statements when none
does; and, concretely, for `import copy`, blank, `import oslo_utils`,
blank, code using `unicode`, the unicode rule inserts `import six` into
the oslo group right after `import oslo_utils`, not as a new group. -/
theorem insert_position_sorted_with_example :
    (∀ (fuel : Nat) (content : List Char) (pos e : Nat) (names : List String),
      findInsertPos content pos e names fuel =
        pos + sortedInsertOffset (stmtLines fuel content pos e) names) ∧
    unicodePatch "import copy\n\nimport oslo_utils\n\nt = unicode\n" =
      .ok "import copy\n\nimport oslo_utils\nimport six\n\nt = six.text_type\n" :=
  ⟨findInsertPos_eq_sortedOffset, by decide⟩

/-- Soundness of the matcher for anchor-free regexes: a successful run
consumed a prefix the regex can match declaratively, advancing the
position by its length, and then ran the continuation. -/
theorem remat_consumes (endpos : Nat) :
    ∀ fuel re st k res, noAnchors re = true →
      remat endpos fuel re st k = some res →
      ∃ (s1 : List Char) (st2 : MSt),
        st.r = s1 ++ st2.r ∧ st2.p = st.p + s1.length ∧
          Matches re s1 ∧ k st2 = some res := by
  intro fuel
  induction fuel with
  | zero =>
    intro re st k res _ h
    simp [remat] at h
  | succ m ih =>
    intro re st k res hna h
    obtain ⟨l, r, p, caps⟩ := st
    cases re with
    | eps =>
      simp only [remat] at h
      exact ⟨[], ⟨l, r, p, caps⟩, rfl, by simp, Matches.eps, h⟩
    | lit c =>
      cases r with
      | nil => simp [remat] at h
      | cons c2 rest =>
        simp only [remat] at h
        by_cases hc : (p < endpos && c2 == c) = true
        · rw [if_pos hc] at h
          have hcp := hc
          rw [Bool.and_eq_true] at hcp
          have hceq : c2 = c := eq_of_beq hcp.2
          cases hceq
          exact ⟨[c], ⟨c :: l, rest, p + 1, caps⟩, rfl, by simp, Matches.lit c, h⟩
        · rw [if_neg hc] at h
          exact Option.noConfusion h
    | cls neg rs =>
      cases r with
      | nil => simp [remat] at h
      | cons c2 rest =>
        simp only [remat] at h
        by_cases hc : (p < endpos && (inRanges c2 rs != neg)) = true
        · rw [if_pos hc] at h
          have hcp := hc
          rw [Bool.and_eq_true] at hcp
          exact ⟨[c2], ⟨c2 :: l, rest, p + 1, caps⟩, rfl, by simp,
            Matches.cls neg rs c2 hcp.2, h⟩
        · rw [if_neg hc] at h
          exact Option.noConfusion h
    | dot =>
      cases r with
      | nil => simp [remat] at h
      | cons c2 rest =>
        simp only [remat] at h
        by_cases hc : (p < endpos && c2 != '\n') = true
        · rw [if_pos hc] at h
          have hcp := hc
          rw [Bool.and_eq_true] at hcp
          exact ⟨[c2], ⟨c2 :: l, rest, p + 1, caps⟩, rfl, by simp,
            Matches.dot c2 hcp.2, h⟩
        · rw [if_neg hc] at h
          exact Option.noConfusion h
    | seq a b =>
      simp only [remat] at h
      simp only [noAnchors, Bool.and_eq_true] at hna
      obtain ⟨s1, st2, hr1, hp1, hm1, hk1⟩ := ih a ⟨l, r, p, caps⟩ _ res hna.1 h
      obtain ⟨s2, st3, hr2, hp2, hm2, hk2⟩ := ih b st2 k res hna.2 hk1
      refine ⟨s1 ++ s2, st3, ?_, ?_, Matches.seq hm1 hm2, hk2⟩
      · show r = (s1 ++ s2) ++ st3.r
        rw [List.append_assoc, ← hr2]
        exact hr1
      · show st3.p = p + (s1 ++ s2).length
        have hq1 : st2.p = p + s1.length := hp1
        simp [hp2, hq1]
        omega
    | alt a b =>
      simp only [noAnchors, Bool.and_eq_true] at hna
      simp only [remat] at h
      cases hA : remat endpos m a ⟨l, r, p, caps⟩ k with
      | some v =>
        rw [hA] at h
        simp only [Option.some.injEq] at h
        cases h
        obtain ⟨s1, st2, hr1, hp1, hm1, hk1⟩ := ih a ⟨l, r, p, caps⟩ k res hna.1 hA
        exact ⟨s1, st2, hr1, hp1, Matches.altL hm1, hk1⟩
      | none =>
        rw [hA] at h
        obtain ⟨s1, st2, hr1, hp1, hm1, hk1⟩ := ih b ⟨l, r, p, caps⟩ k res hna.2 h
        exact ⟨s1, st2, hr1, hp1, Matches.altR hm1, hk1⟩
    | star r1 =>
      simp only [noAnchors] at hna
      simp only [remat] at h
      cases hA : remat endpos m r1 ⟨l, r, p, caps⟩
          (fun st2 => if p < st2.p then remat endpos m (.star r1) st2 k else none) with
      | some v =>
        rw [hA] at h
        simp only [Option.some.injEq] at h
        cases h
        obtain ⟨s1, st2, hr1, hp1, hm1, hk1⟩ := ih r1 ⟨l, r, p, caps⟩ _ res hna hA
        have hk1b : (if p < st2.p then remat endpos m (.star r1) st2 k else none) =
            some res := hk1
        by_cases hpp : p < st2.p
        · rw [if_pos hpp] at hk1b
          obtain ⟨s2, st3, hr2, hp2, hm2, hk2⟩ :=
            ih (.star r1) st2 k res (by simpa [noAnchors] using hna) hk1b
          refine ⟨s1 ++ s2, st3, ?_, ?_, Matches.starCons hm1 hm2, hk2⟩
          · show r = (s1 ++ s2) ++ st3.r
            rw [List.append_assoc, ← hr2]
            exact hr1
          · show st3.p = p + (s1 ++ s2).length
            have hq1 : st2.p = p + s1.length := hp1
            simp [hp2, hq1]
            omega
        · rw [if_neg hpp] at hk1b
          exact Option.noConfusion hk1b
      | none =>
        rw [hA] at h
        exact ⟨[], ⟨l, r, p, caps⟩, rfl, by simp, Matches.starNil r1, h⟩
    | opt r1 =>
      simp only [noAnchors] at hna
      simp only [remat] at h
      cases hA : remat endpos m r1 ⟨l, r, p, caps⟩ k with
      | some v =>
        rw [hA] at h
        simp only [Option.some.injEq] at h
        cases h
        obtain ⟨s1, st2, hr1, hp1, hm1, hk1⟩ := ih r1 ⟨l, r, p, caps⟩ k res hna hA
        exact ⟨s1, st2, hr1, hp1, Matches.optSome hm1, hk1⟩
      | none =>
        rw [hA] at h
        exact ⟨[], ⟨l, r, p, caps⟩, rfl, by simp, Matches.optNil r1, h⟩
    | grp gn r1 =>
      simp only [noAnchors] at hna
      simp only [remat] at h
      obtain ⟨s1, st2, hr1, hp1, hm1, hk1⟩ := ih r1 ⟨l, r, p, caps⟩ _ res hna h
      exact ⟨s1, ⟨st2.l, st2.r, st2.p, (gn, p, st2.p) :: st2.caps⟩, hr1, hp1,
        Matches.grp gn hm1, hk1⟩
    | bol => simp [noAnchors] at hna
    | eol => simp [noAnchors] at hna
    | wb => simp [noAnchors] at hna
    | nlb pre => simp [noAnchors] at hna
    | nla post => simp [noAnchors] at hna

/-- A full match of an anchor-free regex consumes the whole string, so
the string is in the regex language. -/
theorem reMatchFull_matches (re : RE) (s : String) (hna : noAnchors re = true)
    (h : reMatchFull re s = true) : Matches re s.data := by
  unfold reMatchFull at h
  cases hx : remat s.data.length (4 * s.data.length + reSize re + 16) re
      ⟨[], s.data, 0, []⟩
      (fun st => if st.p == s.data.length then some (st.p, st.caps) else none) with
  | none => rw [hx] at h; simp at h
  | some res =>
    obtain ⟨s1, st2, hr1, hp1, hm1, hk1⟩ :=
      remat_consumes s.data.length (4 * s.data.length + reSize re + 16) re
        ⟨[], s.data, 0, []⟩ _ res hna hx
    have hr1b : s.data = s1 ++ st2.r := hr1
    have hp1b : st2.p = 0 + s1.length := hp1
    have hk1b : (if st2.p == s.data.length then some (st2.p, st2.caps) else none) =
        some res := hk1
    have hp2 : st2.p = s.data.length := by
      by_cases hq : (st2.p == s.data.length) = true
      · exact eq_of_beq hq
      · rw [if_neg hq] at hk1b
        exact Option.noConfusion hk1b
    have hnil : st2.r = [] := by
      have hc : s.data.length = s1.length + st2.r.length := by
        rw [hr1b, List.length_append]
      have hz : st2.r.length = 0 := by omega
      exact List.length_eq_zero.mp hz
    rw [hnil, List.append_nil] at hr1b
    rw [hr1b]
    exact hm1

/-- Every character consumed by the paren-free character class (or its
star) is neither an opening nor a closing parenthesis. -/
theorem matches_noparen_chars :
    ∀ (re0 : RE) (s : List Char), Matches re0 s →
      (re0 = .cls true [('(', '('), (')', ')')] ∨
        re0 = .star (.cls true [('(', '('), (')', ')')])) →
      ∀ c ∈ s, c ≠ '(' ∧ c ≠ ')' := by
  intro re0 s h
  induction h with
  | eps => intro _ c hc; simp at hc
  | lit ch => rintro (hd | hd) <;> simp at hd
  | cls neg rs ch hcc =>
    rintro (hd | hd)
    · injection hd with h1 h2
      subst h1
      subst h2
      intro c hc
      simp at hc
      subst hc
      constructor
      · intro he
        subst he
        exact absurd hcc (by decide)
      · intro he
        subst he
        exact absurd hcc (by decide)
    · simp at hd
  | dot ch hne => rintro (hd | hd) <;> simp at hd
  | seq h1 h2 ih1 ih2 => rintro (hd | hd) <;> simp at hd
  | altL h1 ih1 => rintro (hd | hd) <;> simp at hd
  | altR h1 ih1 => rintro (hd | hd) <;> simp at hd
  | starNil r1 => intro _ c hc; simp at hc
  | starCons h1 h2 ih1 ih2 =>
    rintro (hd | hd)
    · simp at hd
    · injection hd with hr1
      subst hr1
      intro c hc
      rcases List.mem_append.mp hc with hc | hc
      · exact ih1 (Or.inl rfl) c hc
      · exact ih2 (Or.inr rfl) c hc
  | optNil r1 => rintro (hd | hd) <;> simp at hd
  | optSome h1 ih1 => rintro (hd | hd) <;> simp at hd
  | grp gn h1 ih1 => rintro (hd | hd) <;> simp at hd

/-- Shape of a string consumed by `SUBPARENT_REGEX`: one pair of
parentheses around a nonempty paren-free middle. -/
theorem matches_subparent_chars (sO : List Char) (h : Matches subparentR sO) :
    ∃ mid, sO = '(' :: (mid ++ [')']) ∧ ∀ c ∈ mid, c ≠ '(' ∧ c ≠ ')' := by
  unfold subparentR plusR at h
  cases h with
  | seq hOpen hRest =>
    cases hOpen
    cases hRest with
    | seq hMid hClose =>
      cases hClose
      cases hMid with
      | seq hc1 hstar =>
        have h5 := matches_noparen_chars _ _ hc1 (Or.inl rfl)
        have h6 := matches_noparen_chars _ _ hstar (Or.inr rfl)
        rename_i s5 s6
        refine ⟨s5 ++ s6, by simp, ?_⟩
        intro c hc
        rcases List.mem_append.mp hc with hc | hc
        · exact h5 c hc
        · exact h6 c hc

/-- Scanning a paren-free segment leaves the depth unchanged. -/
theorem depthLe_noparen_append (t : List Char) :
    ∀ (s : List Char) (d k : Nat), (∀ c ∈ s, c ≠ '(' ∧ c ≠ ')') →
      depthLe d k (s ++ t) = depthLe d k t := by
  intro s
  induction s with
  | nil => intro d k _; rfl
  | cons c rest ih =>
    intro d k hnp
    have hc := hnp c (by simp)
    have h1 : (c == '(') = false := by
      cases hb : (c == '(') with
      | false => rfl
      | true => exact absurd (eq_of_beq hb) hc.1
    have h2 : (c == ')') = false := by
      cases hb : (c == ')') with
      | false => rfl
      | true => exact absurd (eq_of_beq hb) hc.2
    rw [List.cons_append]
    show depthLe d k (c :: (rest ++ t)) = depthLe d k t
    simp only [depthLe, h1, h2]
    simp only [Bool.false_eq_true, if_false]
    exact ih d k (fun c2 hc2 => hnp c2 (by simp [hc2]))

/-- Stepping over an opening parenthesis. -/
theorem depthLe_cons_open (d k : Nat) (t : List Char) :
    depthLe d k ('(' :: t) = (decide (d + 1 ≤ k) && depthLe (d + 1) k t) := rfl

/-- Stepping over a closing parenthesis. -/
theorem depthLe_cons_close (d k : Nat) (t : List Char) :
    depthLe d k (')' :: t) = depthLe (d - 1) k t := rfl

/-- Any string consumed in full by `PARENT_REGEX` keeps its parenthesis
nesting depth at most 2: the outer pair plus at most one nested pair. -/
theorem matches_parent_depth (s : List Char) (h : Matches parentR s) :
    depthLe 0 2 s = true := by
  unfold parentR at h
  cases h with
  | seq hOpen hRest =>
    cases hOpen
    cases hRest with
    | @seq _ _ sA s3 hA h3 =>
      cases h3 with
      | @seq _ _ sO s4 hO h4 =>
        cases h4 with
        | @seq _ _ sC s5 hC h5 =>
          cases h5
          have hAnp := matches_noparen_chars _ _ hA (Or.inr rfl)
          have hCnp := matches_noparen_chars _ _ hC (Or.inr rfl)
          rw [List.singleton_append, depthLe_cons_open]
          rw [depthLe_noparen_append _ sA 1 2 hAnp]
          cases hO with
          | optNil =>
            rw [List.nil_append, depthLe_noparen_append _ sC 1 2 hCnp]
            rfl
          | optSome hsp =>
            obtain ⟨mid, hmid, hmidnp⟩ := matches_subparent_chars _ hsp
            rw [hmid, List.cons_append, depthLe_cons_open, List.append_assoc]
            rw [depthLe_noparen_append _ mid 2 2 hmidnp]
            rw [List.singleton_append, depthLe_cons_close]
            rw [depthLe_noparen_append _ sC 1 2 hCnp]
            rfl

/-! ### C7: nested parentheses and the expression grammar -/

/-- C7, counterexample: `f(g(x)).next()` IS rewritten by the next rule.
The full expression `f(g(x))` is not matched (its nested call defeats
`EXPR_REGEX`), but the `PARENT_REGEX` alternative matches the
sub-expression `(g(x))`, so the rule fires mid-expression and produces
the corrupted text `fnext(g(x))` instead of leaving the input
unchanged. -/
theorem nested_parens_next_rewrites :
    nextPatch "f(g(x)).next()" = "fnext(g(x))" ∧
      nextPatch "f(g(x)).next()" ≠ "f(g(x)).next()" := by
  refine ⟨by decide, by decide⟩

/-- C7, amended: the grammar bounds the nesting it accepts instead of
rejecting deeply nested input outright.  Any string fully matched by
`PARENT_REGEX` has parenthesis nesting depth at most 2 (the one-level
limit of the source comment), and the expression grammar `EXPR|PARENT`
used by the next rule does not match `f(g(x))` in full; but a rule can
still fire on a matching sub-expression of such input, so the text is
not left unchanged: the next rule turns `f(g(x)).next()` into
`fnext(g(x))`. -/
theorem nested_parens_grammar_bound :
    (∀ s : String, reMatchFull parentR s = true → depthLe 0 2 s.data = true) ∧
    reMatchFull (RE.alt exprR parentR) "f(g(x))" = false ∧
    nextPatch "f(g(x)).next()" = "fnext(g(x))" :=
  ⟨fun s hs => matches_parent_depth s.data
      (reMatchFull_matches parentR s (by decide) hs),
   by decide, by decide⟩

/-- Witness for the amended C7: the depth bound applied to the concrete
full match `(a(b)c)` of `PARENT_REGEX`. -/
theorem nested_parens_grammar_witness :
    depthLe 0 2 "(a(b)c)".data = true ∧
    reMatchFull (RE.alt exprR parentR) "f(g(x))" = false ∧
    nextPatch "f(g(x)).next()" = "fnext(g(x))" :=
  ⟨nested_parens_grammar_bound.1 "(a(b)c)" (by decide),
   nested_parens_grammar_bound.2.1, nested_parens_grammar_bound.2.2⟩

/-! ### C8: iteritems literal scenario -/

/-- C8, counterexample: the new leading group is followed by two blank
lines, not one: the output is `import six` then a blank line then a
second blank line then the rewritten statement. -/
theorem iteritems_two_blank_lines :
    iteritemsPatch "for key, value in data.iteritems(): pass\n" =
      .ok "import six\n\n\nfor key, value in six.iteritems(data): pass\n" ∧
    ("import six\n\n\nfor key, value in six.iteritems(data): pass\n" : String) ≠
      "import six\n\nfor key, value in six.iteritems(data): pass\n" := by
  refine ⟨by decide, by decide⟩

/-- C8, amended: with only the iteritems rule active the output inserts
`import six` as a new leading group followed by two blank lines, then
the rewritten loop header. -/
theorem iteritems_literal_scenario :
    iteritemsPatch "for key, value in data.iteritems(): pass\n" =
      .ok ("import six\n" ++ "\n\n" ++
        "for key, value in six.iteritems(data): pass\n") := by
  decide

/-! ### C9: urllib literal scenario -/

/-- C9: on `import urllib2` plus the usages `urllib2.urlopen(url)` and
`urllib2.URLError`, the urllib rule removes the import, adds
`from six.moves import urllib` as a new group, and rewrites the usages
to `urllib.request.urlopen(url)` and `urllib.error.URLError` via the
static symbol table. -/
theorem urllib_literal_scenario :
    urllibPatch "import urllib2\n\nurllib2.urlopen(url)\nurllib2.URLError\n" =
      .ok ("from six.moves import urllib\n" ++ "\n\n" ++
        "urllib.request.urlopen(url)\nurllib.error.URLError\n") := by
  decide

/-! ### C10: xrange thresholds -/

/-- C10: `for i in xrange(10): pass` with threshold 1024 becomes
`for i in range(10): pass` with no import; with threshold 5 the output
additionally prepends `from six.moves import range` as a new group. -/
theorem xrange_threshold_scenarios :
    xrangePatch 1024 "for i in xrange(10): pass\n" =
      .ok "for i in range(10): pass\n" ∧
    xrangePatch 5 "for i in xrange(10): pass\n" =
      .ok ("from six.moves import range\n" ++ "\n\n" ++
        "for i in range(10): pass\n") := by
  refine ⟨by decide, by decide⟩

end Sixer
